import Mathlib

/-!
Shallow embedding of the Raydium-New-Pools-Listener trading core.

The Python sources use `decimal.Decimal` for ledger arithmetic; we embed
those values as exact rationals (`ℚ`).  The one place the code rounds
explicitly — `Decimal.quantize(Decimal('0.000000001'))`, nine decimal
places with the context default `ROUND_HALF_EVEN` — is modelled by
`quantize9` below.  Python `dict`s keyed by pool id are modelled as
association lists with insert-replace / erase semantics.  Wall-clock
reads (`datetime.now()`) become explicit `now` parameters, and every
`try`/`except` block that swallows an error and returns a failure
value is modelled by the corresponding explicit branch.
-/

namespace Listener

/-- `ROUND_HALF_EVEN` (banker's rounding) of a rational to an integer:
the rounding mode `Decimal.quantize` uses by default. -/
def roundHalfEven (y : ℚ) : ℤ :=
  if y - ⌊y⌋ < 1/2 then ⌊y⌋
  else if 1/2 < y - ⌊y⌋ then ⌊y⌋ + 1
  else if ⌊y⌋ % 2 = 0 then ⌊y⌋ else ⌊y⌋ + 1

/-- `x.quantize(Decimal('0.000000001'))`: round to nine decimal places,
ties to even. -/
def quantize9 (x : ℚ) : ℚ :=
  (roundHalfEven (x * 10 ^ 9) : ℚ) / 10 ^ 9

/-- Python `d.get(k)` on a string-keyed dict. -/
def dictGet {α : Type} (k : String) : List (String × α) → Option α
  | [] => none
  | q :: d => if q.1 = k then some q.2 else dictGet k d

/-- Python `d[k] = v`: replace in place if the key exists, else append
(insertion order is preserved, as for a Python dict). -/
def dictInsert {α : Type} (k : String) (v : α) :
    List (String × α) → List (String × α)
  | [] => [(k, v)]
  | q :: d => if q.1 = k then (k, v) :: d else q :: dictInsert k v d

/-- Python `del d[k]` (a no-op when the key is absent; the sources only
delete keys they just looked up). -/
def dictErase {α : Type} (k : String) : List (String × α) → List (String × α)
  | [] => []
  | q :: d => if q.1 = k then dictErase k d else q :: dictErase k d

/-! ## Data model of `src/paper_trading.py` -/

/-- A row of `portfolio['positions']` as built by `execute_buy`. -/
structure Position where
  pool_id : String
  base_mint : String
  quote_mint : String
  base_decimals : ℕ
  quote_decimals : ℕ
  entry_trade_id : String
  entry_price : ℚ
  base_amount : ℚ
  quote_amount : ℚ
  entry_timestamp : ℕ
  status : String
  last_price : ℚ
  consecutive_profit_updates : ℕ
deriving DecidableEq, Repr

/-- A row of `portfolio['trades']`.  A failed buy is returned (not
appended) with `tx_signature = none` and no trade type. -/
structure Trade where
  tx_signature : Option String
  pool_id : String
  trade_type : String
  base_amount : ℚ
  quote_amount : ℚ
  price : ℚ
  timestamp : ℕ
  status : String
deriving DecidableEq, Repr

structure Portfolio where
  balance : ℚ
  positions : List (String × Position)
  trades : List Trade
  last_update : ℕ
deriving DecidableEq, Repr

/-- One entry of `exit_strategies.json` (`strategies[id]`). -/
structure Strategy where
  enabled : Bool
  type : String
  profit_threshold : ℚ
  consecutive_updates : ℕ
  sell_percentage : ℚ
deriving DecidableEq, Repr

structure Strategies where
  strategies : List (String × Strategy)
  active_strategies : List String
deriving DecidableEq, Repr

/-- `PaperTradingManager` state: the portfolio, the per-pool
`position_updates` counters, and the loaded exit strategies. -/
structure PaperState where
  portfolio : Portfolio
  position_updates : List (String × ℕ)
  strategies : Strategies
deriving DecidableEq, Repr

/-- `self.initial_balance = Decimal('10.0')`. -/
def initial_balance : ℚ := 10

/-- The fresh portfolio created by `_load_portfolio` when no file exists. -/
def initialPaperState (strats : Strategies) : PaperState :=
  { portfolio := { balance := initial_balance, positions := [], trades := [],
                   last_update := 0 },
    position_updates := [],
    strategies := strats }

/-- `f"paper_tx_{int(datetime.now().timestamp() * 1000)}"`. -/
def mkTxSignature (now : ℕ) : String := "paper_tx_" ++ toString now

/-- `PaperTradingManager.execute_buy`.  The insufficient-balance
`ValueError` and the `Decimal` division error on a zero price are both
caught by the surrounding `except`, which returns a `'failed'` record
and leaves the portfolio untouched. -/
def execute_buy (st : PaperState) (pool_id base_mint quote_mint : String)
    (price : ℚ) (base_decimals quote_decimals : ℕ) (sol_amount : ℚ)
    (now : ℕ) : PaperState × Trade :=
  if st.portfolio.balance < sol_amount ∨ price = 0 then
    (st, { tx_signature := none, pool_id := pool_id, trade_type := "",
           base_amount := 0, quote_amount := sol_amount, price := price,
           timestamp := now, status := "failed" })
  else
    let base_amount := quantize9 (sol_amount / price)
    let sig := mkTxSignature now
    let trade : Trade :=
      { tx_signature := some sig, pool_id := pool_id, trade_type := "buy",
        base_amount := base_amount, quote_amount := sol_amount,
        price := price, timestamp := now, status := "confirmed" }
    let pos : Position :=
      { pool_id := pool_id, base_mint := base_mint, quote_mint := quote_mint,
        base_decimals := base_decimals, quote_decimals := quote_decimals,
        entry_trade_id := sig, entry_price := price,
        base_amount := base_amount, quote_amount := sol_amount,
        entry_timestamp := now, status := "open", last_price := price,
        consecutive_profit_updates := 0 }
    ({ portfolio :=
         { balance := st.portfolio.balance - sol_amount,
           positions := dictInsert pool_id pos st.portfolio.positions,
           trades := st.portfolio.trades ++ [trade],
           last_update := now },
       position_updates := dictInsert pool_id 0 st.position_updates,
       strategies := st.strategies }, trade)

/-- `PaperTradingManager.execute_sell`. -/
def execute_sell (st : PaperState) (pool_id : String)
    (price percentage : ℚ) (now : ℕ) : PaperState × Option Trade :=
  match dictGet pool_id st.portfolio.positions with
  | none => (st, none)
  | some pos =>
    if pos.status ≠ "open" then (st, none)
    else
      let base_amount := pos.base_amount * percentage
      let quote_amount := quantize9 (base_amount * price)
      let sig := mkTxSignature now
      let trade : Trade :=
        { tx_signature := some sig, pool_id := pool_id, trade_type := "sell",
          base_amount := base_amount, quote_amount := quote_amount,
          price := price, timestamp := now, status := "confirmed" }
      let bal := st.portfolio.balance + quote_amount
      let trades := st.portfolio.trades ++ [trade]
      if percentage = 1 then
        ({ portfolio :=
             { balance := bal,
               positions := dictErase pool_id st.portfolio.positions,
               trades := trades, last_update := now },
           position_updates := dictErase pool_id st.position_updates,
           strategies := st.strategies }, some trade)
      else
        let pos' := { pos with
          base_amount := pos.base_amount - base_amount,
          quote_amount := pos.quote_amount * (1 - percentage) }
        ({ portfolio :=
             { balance := bal,
               positions := dictInsert pool_id pos' st.portfolio.positions,
               trades := trades, last_update := now },
           position_updates := st.position_updates,
           strategies := st.strategies }, some trade)

/-- The `for strategy_id in self.strategies['active_strategies']` loop of
`update_position_price`: the first active, enabled, `profit_based`
strategy whose consecutive-updates and profit-threshold conditions both
hold (a non-matching strategy is skipped with `continue`). -/
def findTriggeredGo (strats : Strategies) (counter : ℕ) (profit_pct : ℚ) :
    List String → Option Strategy
  | [] => none
  | sid :: rest =>
    match dictGet sid strats.strategies with
    | none => findTriggeredGo strats counter profit_pct rest
    | some s =>
      if s.enabled && s.type == "profit_based"
          && decide (s.consecutive_updates ≤ counter)
          && decide (s.profit_threshold ≤ profit_pct) then
        some s
      else
        findTriggeredGo strats counter profit_pct rest

def findTriggered (strats : Strategies) (counter : ℕ) (profit_pct : ℚ) :
    Option Strategy :=
  findTriggeredGo strats counter profit_pct strats.active_strategies

/-- `PaperTradingManager.update_position_price`.  A zero entry price would
make the `Decimal` division raise (caught: returns `None`, state
unchanged), and a missing `position_updates` entry would raise `KeyError`
(likewise caught before any mutation). -/
def update_position_price (st : PaperState) (pool_id : String)
    (current_price : ℚ) (now : ℕ) : PaperState × Option Trade :=
  match dictGet pool_id st.portfolio.positions with
  | none => (st, none)
  | some pos =>
    if pos.status ≠ "open" then (st, none)
    else if pos.entry_price = 0 then (st, none)
    else
      let profit_pct := (current_price - pos.entry_price) / pos.entry_price
      if profit_pct ≤ -(1/10) then
        execute_sell st pool_id current_price 1 now
      else
        match dictGet pool_id st.position_updates with
        | none => (st, none)
        | some c =>
          let c' := if 1/10 ≤ profit_pct then c + 1 else 0
          let st' : PaperState :=
            { portfolio := { st.portfolio with
                positions := dictInsert pool_id
                  { pos with last_price := current_price }
                  st.portfolio.positions },
              position_updates := dictInsert pool_id c' st.position_updates,
              strategies := st.strategies }
          match findTriggered st.strategies c' profit_pct with
          | some s => execute_sell st' pool_id current_price s.sell_percentage now
          | none => (st', none)

/-- `PaperTradingManager.get_position` (the float conversion and the
derived `profit_pct` field in the returned dict are representation only). -/
def get_position (st : PaperState) (pool_id : String) : Option Position :=
  dictGet pool_id st.portfolio.positions

/-! ## Interleaved operation sequences on the paper portfolio -/

/-- One public operation on the `PaperTradingManager`. -/
inductive PaperOp
  | buy (pool_id base_mint quote_mint : String) (price : ℚ)
        (base_decimals quote_decimals : ℕ) (sol_amount : ℚ) (now : ℕ)
  | sell (pool_id : String) (price percentage : ℚ) (now : ℕ)
  | upd (pool_id : String) (current_price : ℚ) (now : ℕ)

def applyOp (st : PaperState) : PaperOp → PaperState
  | .buy p b q pr bd qd sol now => (execute_buy st p b q pr bd qd sol now).1
  | .sell p pr perc now => (execute_sell st p pr perc now).1
  | .upd p pr now => (update_position_price st p pr now).1

def applyOps (st : PaperState) (ops : List PaperOp) : PaperState :=
  ops.foldl applyOp st

/-- The number of positions recorded for `pool_id` with status `'open'`. -/
def openPositionsFor (pool_id : String) (st : PaperState) : ℕ :=
  (st.portfolio.positions.filter
    (fun q => q.1 == pool_id && q.2.status == "open")).length

/-- Market-sane operation arguments: non-negative prices and amounts, sell
percentage between 0 and 1 (the callers in the sources pass `1.0` or a
configured `sell_percentage`). -/
def PaperOp.wf : PaperOp → Prop
  | .buy _ _ _ pr _ _ sol _ => 0 ≤ pr ∧ 0 ≤ sol
  | .sell _ pr perc _ => 0 ≤ pr ∧ 0 ≤ perc ∧ perc ≤ 1
  | .upd _ pr _ => 0 ≤ pr

/-- Every configured strategy sells a fraction of the position in `[0,1]`. -/
def StrategiesWf (strats : Strategies) : Prop :=
  ∀ q ∈ strats.strategies, 0 ≤ q.2.sell_percentage ∧ q.2.sell_percentage ≤ 1

/-- Signed quote-balance contribution of one recorded trade: a confirmed
sell credits its quote amount, a confirmed buy debits it. -/
def tradeDelta (t : Trade) : ℚ :=
  if t.status = "confirmed" then
    (if t.trade_type = "sell" then t.quote_amount else -t.quote_amount)
  else 0

def ledgerDelta (ts : List Trade) : ℚ := (ts.map tradeDelta).sum

/-- The balance equals the starting balance plus each recorded trade's
adjustment applied exactly once. -/
def balanceConsistent (st : PaperState) : Prop :=
  st.portfolio.balance = initial_balance + ledgerDelta st.portfolio.trades

/-- Confirmed buy trades recorded for a pool. -/
def confirmedBuysFor (pool_id : String) (ts : List Trade) : ℕ :=
  (ts.filter (fun t => t.pool_id == pool_id && t.trade_type == "buy"
      && t.status == "confirmed")).length

/-- All trades recorded for a pool. -/
def tradesFor (pool_id : String) (ts : List Trade) : ℕ :=
  (ts.filter (fun t => t.pool_id == pool_id)).length

/-! ## Engine model: `src/main_trading_backend.py` (`RaydiumWebSocketClient`,
paper-trading mode) -/

/-- The pool data dict built by `_on_new_pool` (claim-relevant fields). -/
structure PoolInfo where
  base_mint : String
  quote_mint : String
  base_decimals : ℕ
  quote_decimals : ℕ
  initial_price : ℚ
  price_received : Bool
deriving DecidableEq, Repr

/-- The claim-relevant part of `TradeConfig`. -/
structure EngineConfig where
  max_pool_age_ms : ℕ
  immediate_trading : Bool
  initial_buy_amount : ℚ
  max_monitor_time : ℕ
deriving DecidableEq, Repr

/-- Claim-relevant mutable state of `RaydiumWebSocketClient`:
`_pending_pools`, the FIFO `_trade_queue` (each entry unpacked by the
processor as `(pool_id, trade_data)`), the `_traded_pools` set,
`_active_monitors` (keys only), and the paper-trading ledger. -/
structure EngineState where
  pending_pools : List (String × PoolInfo)
  trade_queue : List (String × PoolInfo)
  traded_pools : List String
  active_monitors : List String
  paper : PaperState
deriving DecidableEq, Repr

/-- `_on_new_pool`: a missing pool id is dropped; a pool whose event age
exceeds `max_pool_age_ms` is skipped before it is stored in the pending
set or any task is started; otherwise the pool is added to
`_pending_pools` with `price_received = False` and a price-wait task is
spawned (the wait itself is a separate event below). -/
def onNewPool (cfg : EngineConfig) (st : EngineState) (pool_id : String)
    (age_ms : ℕ) (info : PoolInfo) : EngineState :=
  if pool_id = "" then st
  else if cfg.max_pool_age_ms < age_ms then st
  else
    let info' := { info with price_received := false }
    { st with pending_pools := dictInsert pool_id info' st.pending_pools }

/-- `_on_pool_update` (paper mode): non-positive prices are dropped; a
pending pool that has not yet received a price gets its
`initial_price`/`price_received` set.  For an actively monitored pool the
handler then calls `_check_exit_conditions`, whose sell path
(`_execute_sell`) invokes `paper_trader.execute_sell` with a
`current_price` keyword that `execute_sell` does not accept, so in paper
mode that call raises `TypeError`, is caught, and returns a failed result
without touching the ledger — hence no further state change here. -/
def onPoolUpdate (st : EngineState) (pool_id : String) (price : ℚ) :
    EngineState :=
  if pool_id = "" then st
  else if price ≤ 0 then st
  else
    match dictGet pool_id st.pending_pools with
    | some info =>
      if info.price_received then st
      else
        let info' := { info with initial_price := price, price_received := true }
        { st with pending_pools := dictInsert pool_id info' st.pending_pools }
    | none => st

/-- `_on_pool_ready`: unknown pools are ignored; with `immediate_trading`
the pending pool's data is enqueued on the trade queue; the pool is then
removed from the pending set. -/
def onPoolReady (cfg : EngineConfig) (st : EngineState) (pool_id : String) :
    EngineState :=
  if pool_id = "" then st
  else
    match dictGet pool_id st.pending_pools with
    | none => st
    | some info =>
      let st' :=
        if cfg.immediate_trading then
          { st with trade_queue := st.trade_queue ++ [(pool_id, info)] }
        else st
      { st' with pending_pools := dictErase pool_id st'.pending_pools }

/-- `_wait_for_valid_price` observing `price_received`: queues the trade
and removes the pool from the pending set. -/
def onPriceQualified (st : EngineState) (pool_id : String) : EngineState :=
  match dictGet pool_id st.pending_pools with
  | none => st
  | some info =>
    if info.price_received then
      { st with trade_queue := st.trade_queue ++ [(pool_id, info)],
                pending_pools := dictErase pool_id st.pending_pools }
    else st

/-- `_wait_for_valid_price` timing out: the pool is dropped from the
pending set without trading. -/
def onPriceWaitTimeout (st : EngineState) (pool_id : String) : EngineState :=
  { st with pending_pools := dictErase pool_id st.pending_pools }

/-- One iteration of `_process_trade_queue` (paper mode): pop the next
entry; skip it if the pool was already traded; otherwise execute a paper
buy with the configured SOL amount at the pool's recorded initial price.
On a confirmed buy the pool is marked traded, a still-pending entry gets
the effective price, and monitoring starts (`_start_pool_monitoring` is a
no-op for an already monitored pool). -/
def processQueueStep (cfg : EngineConfig) (st : EngineState) (now : ℕ) :
    EngineState :=
  match st.trade_queue with
  | [] => st
  | (pool_id, info) :: rest =>
    if pool_id ∈ st.traded_pools then { st with trade_queue := rest }
    else
      let r := execute_buy st.paper pool_id info.base_mint info.quote_mint
        info.initial_price info.base_decimals info.quote_decimals
        cfg.initial_buy_amount now
      let st' := { st with trade_queue := rest, paper := r.1 }
      if r.2.status = "confirmed" then
        let pend :=
          match dictGet pool_id st'.pending_pools with
          | some i =>
            let i' := { i with initial_price := r.2.price, price_received := true }
            dictInsert pool_id i' st'.pending_pools
          | none => st'.pending_pools
        { st' with
          traded_pools := pool_id :: st'.traded_pools,
          pending_pools := pend,
          active_monitors :=
            if pool_id ∈ st'.active_monitors then st'.active_monitors
            else pool_id :: st'.active_monitors }
      else st'

/-- `_stop_pool_monitoring`: cancels the monitor task and deletes the
pool from `_active_monitors` (plus its stats and lock).  It performs no
trade and does not touch the paper ledger. -/
def stopPoolMonitoring (st : EngineState) (pool_id : String) : EngineState :=
  { st with active_monitors := st.active_monitors.filter (fun q => q != pool_id) }

/-- One iteration of the `_monitor_pool` loop: when the elapsed monitoring
time exceeds `max_monitor_time`, monitoring is stopped. -/
def monitorPoolStep (cfg : EngineConfig) (st : EngineState) (pool_id : String)
    (elapsed_s : ℕ) : EngineState :=
  if pool_id ∈ st.active_monitors then
    if cfg.max_monitor_time < elapsed_s then stopPoolMonitoring st pool_id
    else st
  else st

/-- The engine's externally driven events. -/
inductive EngineEvent
  | newPool (pool_id : String) (age_ms : ℕ) (info : PoolInfo)
  | poolUpdate (pool_id : String) (price : ℚ)
  | poolReady (pool_id : String)
  | priceQualified (pool_id : String)
  | priceWaitTimeout (pool_id : String)
  | processQueue
  | monitorTick (pool_id : String) (elapsed_s : ℕ)

def engineStep (cfg : EngineConfig) (st : EngineState) (now : ℕ) :
    EngineEvent → EngineState
  | .newPool p age info => onNewPool cfg st p age info
  | .poolUpdate p price => onPoolUpdate st p price
  | .poolReady p => onPoolReady cfg st p
  | .priceQualified p => onPriceQualified st p
  | .priceWaitTimeout p => onPriceWaitTimeout st p
  | .processQueue => processQueueStep cfg st now
  | .monitorTick p e => monitorPoolStep cfg st p e

def runEvents (cfg : EngineConfig) : EngineState → ℕ → List EngineEvent →
    EngineState
  | st, _, [] => st
  | st, now, e :: es => runEvents cfg (engineStep cfg st now e) (now + 1) es

/-- Repeatedly run `_process_trade_queue` iterations (`fuel` bounds the
number of deliveries processed; re-deliveries are duplicate queue
entries). -/
def drainQueue (cfg : EngineConfig) : EngineState → ℕ → ℕ → EngineState
  | st, _, 0 => st
  | st, now, Nat.succ fuel => drainQueue cfg (processQueueStep cfg st now) (now + 1) fuel

/-- `p` has left no trace in the engine: not pending, not queued, not
marked traded, not monitored, and no ledger trade recorded for it. -/
def NoTraceOf (p : String) (st : EngineState) : Prop :=
  dictGet p st.pending_pools = none ∧
  (∀ q ∈ st.trade_queue, q.1 ≠ p) ∧
  p ∉ st.traded_pools ∧
  p ∉ st.active_monitors ∧
  tradesFor p st.paper.portfolio.trades = 0

/-- The hypothesis of claim C7 on one event: any pool-discovered event for
`p` carries an age above the configured maximum. -/
def newPoolAgeExceeds (cfg : EngineConfig) (p : String) : EngineEvent → Bool
  | .newPool q age _ => q != p || decide (cfg.max_pool_age_ms < age)
  | _ => true

/-! ## `DatabaseManager.store_trade` on the `trades` table
(`trade_id TEXT PRIMARY KEY` — the transaction signature, per
`db_schema.py`): inserting a second row with an already stored signature
violates the primary key, raises, is caught, and returns `False` leaving
the table unchanged. -/

def storeTrade (db : List (String × Trade)) (sig : String) (t : Trade) :
    Bool × List (String × Trade) :=
  if db.any (fun q => q.1 == sig) then (false, db)
  else (true, db ++ [(sig, t)])

/-! ## Rate limiter: `src/automated_trading_listener.py` -/

/-- The rate-limiting globals `hourly_trade_count` / `last_hour_reset`. -/
structure RateState where
  hourly_trade_count : ℕ
  last_hour_reset : ℕ
deriving DecidableEq, Repr

/-- `datetime.now().hour` for an epoch-second clock. -/
def hourOf (ts : ℕ) : ℕ := ts / 3600 % 24

/-- `check_rate_limit`: reset the counter when the wall-clock hour value
changed, then admit while the counter is below `MAX_TRADES_PER_HOUR`. -/
def check_rate_limit (maxTrades : ℕ) (rs : RateState) (now : ℕ) :
    Bool × RateState :=
  let h := hourOf now
  let rs' := if h ≠ rs.last_hour_reset then
      { hourly_trade_count := 0, last_hour_reset := h }
    else rs
  (decide (rs'.hourly_trade_count < maxTrades), rs')

/-- The listener's trade-tracking globals. -/
structure ListenerState where
  rate : RateState
  trade_history : List (String × ℕ)
deriving DecidableEq, Repr

/-- Admission control of `execute_trade`: trading toggle, then the rate
limit, then the 5-minute per-pool cooldown; the swap subprocess outcome is
the external parameter `swapSucceeds`, and only a successful run
increments the counter and records the pool in `trade_history`.  The
returned `Bool` is the function's result (`False` = rejected or failed —
nothing is queued). -/
def execute_trade (tradingEnabled : Bool) (maxTrades : ℕ)
    (st : ListenerState) (pool_id : String) (now : ℕ)
    (swapSucceeds : Bool) : Bool × ListenerState :=
  if !tradingEnabled then (false, st)
  else
    let cr := check_rate_limit maxTrades st.rate now
    let st1 : ListenerState := { st with rate := cr.2 }
    if !cr.1 then (false, st1)
    else
      let onCooldown :=
        match dictGet pool_id st1.trade_history with
        | some last => decide (now - last < 300)
        | none => false
      if onCooldown then (false, st1)
      else if swapSucceeds then
        (true,
         { rate := { hourly_trade_count := st1.rate.hourly_trade_count + 1,
                     last_hour_reset := st1.rate.last_hour_reset },
           trade_history := dictInsert pool_id now st1.trade_history })
      else (false, st1)

/-- Module-load state: zero counter, reset marker for hour 0. -/
def initialListenerState : ListenerState :=
  { rate := { hourly_trade_count := 0, last_hour_reset := 0 },
    trade_history := [] }

/-- Run a list of `(pool_id, time)` submissions (all with the trading
toggle on, the default `MAX_TRADES_PER_HOUR = 10`, and a succeeding swap
subprocess), collecting each submission's result. -/
def runSubmissions : ListenerState → List (String × ℕ) →
    List Bool × ListenerState
  | st, [] => ([], st)
  | st, (p, t) :: rest =>
    let r := execute_trade true 10 st p t true
    let rs := runSubmissions r.2 rest
    (r.1 :: rs.1, rs.2)

/-! ## Helper lemmas -/

theorem dictGet_nil {α : Type} (k : String) :
    dictGet k ([] : List (String × α)) = none := rfl

theorem dictGet_cons {α : Type} (k : String) (q : String × α) (d : List (String × α)) :
    dictGet k (q :: d) = if q.1 = k then some q.2 else dictGet k d := rfl

theorem dictInsert_nil {α : Type} (k : String) (v : α) :
    dictInsert k v [] = [(k, v)] := rfl

theorem dictInsert_cons {α : Type} (k : String) (v : α) (q : String × α)
    (d : List (String × α)) :
    dictInsert k v (q :: d) =
      if q.1 = k then (k, v) :: d else q :: dictInsert k v d := rfl

theorem dictErase_nil {α : Type} (k : String) :
    dictErase k ([] : List (String × α)) = [] := rfl

theorem dictErase_cons {α : Type} (k : String) (q : String × α)
    (d : List (String × α)) :
    dictErase k (q :: d) =
      if q.1 = k then dictErase k d else q :: dictErase k d := rfl

theorem dictGet_insert_self {α : Type} (k : String) (v : α)
    (d : List (String × α)) : dictGet k (dictInsert k v d) = some v := by
  induction d with
  | nil => rw [dictInsert_nil, dictGet_cons, if_pos rfl]
  | cons q d ih =>
    rw [dictInsert_cons]
    by_cases h : q.1 = k
    · rw [if_pos h, dictGet_cons, if_pos rfl]
    · rw [if_neg h, dictGet_cons, if_neg h, ih]

theorem dictGet_insert_ne {α : Type} {k k' : String} (v : α)
    (d : List (String × α)) (h : k' ≠ k) :
    dictGet k' (dictInsert k v d) = dictGet k' d := by
  have h' : ¬(k = k') := fun hh => h hh.symm
  induction d with
  | nil => rw [dictInsert_nil, dictGet_cons, if_neg h']
  | cons q d ih =>
    rw [dictInsert_cons]
    by_cases hq : q.1 = k
    · rw [if_pos hq, dictGet_cons, if_neg h', dictGet_cons, if_neg]
      rw [hq]; exact h'
    · rw [if_neg hq, dictGet_cons, dictGet_cons, ih]

theorem dictGet_erase_self {α : Type} (k : String) (d : List (String × α)) :
    dictGet k (dictErase k d) = none := by
  induction d with
  | nil => rfl
  | cons q d ih =>
    rw [dictErase_cons]
    by_cases h : q.1 = k
    · rw [if_pos h]; exact ih
    · rw [if_neg h, dictGet_cons, if_neg h]; exact ih

theorem dictGet_erase_ne {α : Type} {k k' : String} (d : List (String × α))
    (h : k' ≠ k) : dictGet k' (dictErase k d) = dictGet k' d := by
  induction d with
  | nil => rfl
  | cons q d ih =>
    rw [dictErase_cons]
    by_cases hq : q.1 = k
    · rw [if_pos hq, dictGet_cons, if_neg, ih]
      rw [hq]; exact fun hh => h hh.symm
    · rw [if_neg hq, dictGet_cons, dictGet_cons, ih]

theorem dictGet_mem {α : Type} {k : String} {v : α} :
    ∀ {d : List (String × α)}, dictGet k d = some v → (k, v) ∈ d := by
  intro d
  induction d with
  | nil => intro h; exact absurd h (by rw [dictGet_nil]; simp)
  | cons q d ih =>
    intro h
    rw [dictGet_cons] at h
    by_cases hq : q.1 = k
    · rw [if_pos hq] at h
      have hv : q.2 = v := by injection h
      have : q = (k, v) := Prod.ext hq hv
      rw [← this]
      exact List.mem_cons_self _ _
    · rw [if_neg hq] at h
      exact List.mem_cons_of_mem _ (ih h)

theorem mem_dictInsert {α : Type} {k : String} {v : α} {q : String × α} :
    ∀ {d : List (String × α)}, q ∈ dictInsert k v d → q = (k, v) ∨ q ∈ d := by
  intro d
  induction d with
  | nil =>
    intro h
    rw [dictInsert_nil] at h
    exact Or.inl (List.mem_singleton.1 h)
  | cons r d ih =>
    intro h
    rw [dictInsert_cons] at h
    by_cases hr : r.1 = k
    · rw [if_pos hr] at h
      rcases List.mem_cons.1 h with h | h
      · exact Or.inl h
      · exact Or.inr (List.mem_cons_of_mem _ h)
    · rw [if_neg hr] at h
      rcases List.mem_cons.1 h with h | h
      · exact Or.inr (by rw [h]; exact List.mem_cons_self _ _)
      · rcases ih h with h' | h'
        · exact Or.inl h'
        · exact Or.inr (List.mem_cons_of_mem _ h')

theorem mem_dictErase {α : Type} {k : String} {q : String × α} :
    ∀ {d : List (String × α)}, q ∈ dictErase k d → q ∈ d := by
  intro d
  induction d with
  | nil => intro h; exact absurd h (by rw [dictErase_nil]; simp)
  | cons r d ih =>
    intro h
    rw [dictErase_cons] at h
    by_cases hr : r.1 = k
    · rw [if_pos hr] at h
      exact List.mem_cons_of_mem _ (ih h)
    · rw [if_neg hr] at h
      rcases List.mem_cons.1 h with h | h
      · rw [h]; exact List.mem_cons_self _ _
      · exact List.mem_cons_of_mem _ (ih h)

theorem keys_dictInsert {α : Type} {x k : String} {v : α} :
    ∀ {d : List (String × α)}, x ∈ (dictInsert k v d).map Prod.fst →
      x = k ∨ x ∈ d.map Prod.fst := by
  intro d h
  rcases List.mem_map.1 h with ⟨q, hq, hq1⟩
  rcases mem_dictInsert hq with h' | h'
  · left; rw [← hq1, h']
  · right; exact List.mem_map.2 ⟨q, h', hq1⟩

theorem nodupKeys_dictInsert {α : Type} (k : String) (v : α) :
    ∀ {d : List (String × α)}, (d.map Prod.fst).Nodup →
      ((dictInsert k v d).map Prod.fst).Nodup := by
  intro d
  induction d with
  | nil => intro _; rw [dictInsert_nil]; simp
  | cons r d ih =>
    intro h
    rw [List.map_cons, List.nodup_cons] at h
    rw [dictInsert_cons]
    by_cases hr : r.1 = k
    · rw [if_pos hr, List.map_cons, List.nodup_cons]
      exact ⟨by rw [← hr]; exact h.1, h.2⟩
    · rw [if_neg hr, List.map_cons, List.nodup_cons]
      refine ⟨fun hmem => ?_, ih h.2⟩
      rcases keys_dictInsert hmem with h' | h'
      · exact hr h'
      · exact h.1 h'

theorem nodupKeys_dictErase {α : Type} (k : String) :
    ∀ {d : List (String × α)}, (d.map Prod.fst).Nodup →
      ((dictErase k d).map Prod.fst).Nodup := by
  intro d
  induction d with
  | nil => intro _; rw [dictErase_nil]; simp
  | cons r d ih =>
    intro h
    rw [List.map_cons, List.nodup_cons] at h
    rw [dictErase_cons]
    by_cases hr : r.1 = k
    · rw [if_pos hr]
      exact ih h.2
    · rw [if_neg hr, List.map_cons, List.nodup_cons]
      refine ⟨fun hmem => ?_, ih h.2⟩
      rcases List.mem_map.1 hmem with ⟨q, hq, hq1⟩
      exact h.1 (List.mem_map.2 ⟨q, mem_dictErase hq, hq1⟩)

theorem filter_key_length_le_one {α : Type} (p : String)
    (f : String × α → Bool) :
    ∀ {d : List (String × α)}, (d.map Prod.fst).Nodup →
      (d.filter (fun q => q.1 == p && f q)).length ≤ 1 := by
  intro d
  induction d with
  | nil => intro _; simp
  | cons r d ih =>
    intro h
    rw [List.map_cons, List.nodup_cons] at h
    by_cases hr : r.1 = p
    · have hnone : d.filter (fun q => q.1 == p && f q) = [] := by
        apply List.filter_eq_nil_iff.2
        intro q hq
        simp only [Bool.and_eq_true, beq_iff_eq, not_and]
        intro hqp _
        exact h.1 (List.mem_map.2 ⟨q, hq, by rw [hqp, ← hr]⟩)
      by_cases hf : f r
      · have hcond : (r.1 == p && f r) = true := by simp [hr, hf]
        rw [List.filter_cons, if_pos hcond, hnone]
        simp
      · have hcond : (r.1 == p && f r) = false := by simp [hf]
        rw [List.filter_cons, if_neg (by simp [hcond]), hnone]
        simp
    · have hcond : (r.1 == p && f r) = false := by simp [hr]
      rw [List.filter_cons, if_neg (by simp [hcond])]
      exact ih h.2

/-- The in-memory `portfolio['positions']` dict never stores two entries
under the same pool id. -/
def PosKeysNodup (st : PaperState) : Prop :=
  (st.portfolio.positions.map Prod.fst).Nodup

theorem posKeysNodup_buy {st : PaperState}
    (pool_id base_mint quote_mint : String) (price : ℚ)
    (base_decimals quote_decimals : ℕ) (sol_amount : ℚ) (now : ℕ)
    (h : PosKeysNodup st) :
    PosKeysNodup (execute_buy st pool_id base_mint quote_mint price
      base_decimals quote_decimals sol_amount now).1 := by
  unfold execute_buy
  split_ifs
  · exact h
  · exact nodupKeys_dictInsert _ _ h

theorem posKeysNodup_sell {st : PaperState} (pool_id : String)
    (price percentage : ℚ) (now : ℕ) (h : PosKeysNodup st) :
    PosKeysNodup (execute_sell st pool_id price percentage now).1 := by
  unfold execute_sell
  split
  · exact h
  · split_ifs
    · exact h
    · exact nodupKeys_dictErase _ h
    · exact nodupKeys_dictInsert _ _ h

theorem posKeysNodup_upd {st : PaperState} (pool_id : String)
    (current_price : ℚ) (now : ℕ) (h : PosKeysNodup st) :
    PosKeysNodup (update_position_price st pool_id current_price now).1 := by
  unfold update_position_price
  split
  · exact h
  · dsimp only
    split_ifs
    · exact h
    · exact h
    · exact posKeysNodup_sell _ _ _ _ h
    · split
      · exact h
      · split
        · exact posKeysNodup_sell _ _ _ _ (nodupKeys_dictInsert _ _ h)
        · exact nodupKeys_dictInsert _ _ h
    · split
      · exact h
      · split
        · exact posKeysNodup_sell _ _ _ _ (nodupKeys_dictInsert _ _ h)
        · exact nodupKeys_dictInsert _ _ h

theorem posKeysNodup_applyOps {st : PaperState} (ops : List PaperOp)
    (h : PosKeysNodup st) : PosKeysNodup (applyOps st ops) := by
  induction ops generalizing st with
  | nil => exact h
  | cons op ops ih =>
    have hstep : PosKeysNodup (applyOp st op) := by
      cases op with
      | buy p b q pr bd qd sol now => exact posKeysNodup_buy p b q pr bd qd sol now h
      | sell p pr perc now => exact posKeysNodup_sell p pr perc now h
      | upd p pr now => exact posKeysNodup_upd p pr now h
    exact ih hstep

theorem roundHalfEven_nonneg {y : ℚ} (h : 0 ≤ y) : 0 ≤ roundHalfEven y := by
  unfold roundHalfEven
  have hf : (0 : ℤ) ≤ ⌊y⌋ := Int.floor_nonneg.2 h
  split_ifs <;> omega

theorem quantize9_nonneg {x : ℚ} (h : 0 ≤ x) : 0 ≤ quantize9 x := by
  unfold quantize9
  apply div_nonneg
  · exact_mod_cast roundHalfEven_nonneg (by positivity)
  · positivity

theorem findTriggeredGo_mem {strats : Strategies} {c : ℕ} {q : ℚ}
    {s : Strategy} : ∀ {ids : List String},
    findTriggeredGo strats c q ids = some s →
    ∃ sid, (sid, s) ∈ strats.strategies := by
  intro ids
  induction ids with
  | nil => intro h; exact absurd h (by simp [findTriggeredGo])
  | cons sid rest ih =>
    intro h
    unfold findTriggeredGo at h
    revert h
    split
    · exact ih
    · rename_i s' hget
      split_ifs
      · intro h
        have : s' = s := by injection h
        exact ⟨sid, by rw [← this]; exact dictGet_mem hget⟩
      · exact ih

theorem findTriggered_wf {strats : Strategies} {c : ℕ} {q : ℚ} {s : Strategy}
    (hs : StrategiesWf strats) (h : findTriggered strats c q = some s) :
    0 ≤ s.sell_percentage ∧ s.sell_percentage ≤ 1 := by
  rcases findTriggeredGo_mem h with ⟨sid, hmem⟩
  exact hs (sid, s) hmem

/-- The ledger never holds a negative quote balance or a negative base
amount in a position. -/
def StateNonneg (st : PaperState) : Prop :=
  0 ≤ st.portfolio.balance ∧
  ∀ q ∈ st.portfolio.positions, 0 ≤ q.2.base_amount

theorem stateNonneg_buy {st : PaperState}
    {pool_id base_mint quote_mint : String} {price : ℚ}
    {base_decimals quote_decimals : ℕ} {sol_amount : ℚ} {now : ℕ}
    (h : StateNonneg st) (hpr : 0 ≤ price) (hsol : 0 ≤ sol_amount) :
    StateNonneg (execute_buy st pool_id base_mint quote_mint price
      base_decimals quote_decimals sol_amount now).1 := by
  unfold execute_buy
  split_ifs with hc
  · exact h
  · push_neg at hc
    constructor
    · exact sub_nonneg.2 hc.1
    · intro q hq
      rcases mem_dictInsert hq with hq' | hq'
      · rw [hq']
        exact quantize9_nonneg
          (div_nonneg hsol hpr)
      · exact h.2 q hq'

theorem stateNonneg_sell {st : PaperState} {pool_id : String}
    {price percentage : ℚ} {now : ℕ}
    (h : StateNonneg st) (hpr : 0 ≤ price) (hp0 : 0 ≤ percentage)
    (hp1 : percentage ≤ 1) :
    StateNonneg (execute_sell st pool_id price percentage now).1 := by
  unfold execute_sell
  split
  · exact h
  · rename_i pos heq
    have hbase : 0 ≤ pos.base_amount := h.2 (pool_id, pos) (dictGet_mem heq)
    have hquote : 0 ≤ quantize9 (pos.base_amount * percentage * price) :=
      quantize9_nonneg (mul_nonneg (mul_nonneg hbase hp0) hpr)
    split_ifs
    · exact h
    · exact ⟨add_nonneg h.1 hquote,
        fun q hq => h.2 q (mem_dictErase hq)⟩
    · refine ⟨add_nonneg h.1 hquote, fun q hq => ?_⟩
      rcases mem_dictInsert hq with hq' | hq'
      · rw [hq']
        show 0 ≤ pos.base_amount - pos.base_amount * percentage
        have : pos.base_amount - pos.base_amount * percentage
            = pos.base_amount * (1 - percentage) := by ring
        rw [this]
        exact mul_nonneg hbase (by linarith)
      · exact h.2 q hq'

theorem stateNonneg_upd {st : PaperState} {pool_id : String}
    {current_price : ℚ} {now : ℕ}
    (h : StateNonneg st) (hpr : 0 ≤ current_price)
    (hs : StrategiesWf st.strategies) :
    StateNonneg (update_position_price st pool_id current_price now).1 := by
  unfold update_position_price
  split
  · exact h
  · rename_i pos heq
    have hbase : 0 ≤ pos.base_amount := h.2 (pool_id, pos) (dictGet_mem heq)
    dsimp only
    have hmid : ∀ c' : ℕ, StateNonneg
        { portfolio := { st.portfolio with
            positions := dictInsert pool_id
              { pos with last_price := current_price }
              st.portfolio.positions },
          position_updates := dictInsert pool_id c' st.position_updates,
          strategies := st.strategies } := by
      intro c'
      refine ⟨h.1, fun q hq => ?_⟩
      rcases mem_dictInsert hq with hq' | hq'
      · rw [hq']; exact hbase
      · exact h.2 q hq'
    split_ifs
    · exact h
    · exact h
    · exact stateNonneg_sell h hpr (by norm_num) (by norm_num)
    · split
      · exact h
      · split
        · rename_i s hfind
          rcases findTriggered_wf hs hfind with ⟨hs0, hs1⟩
          exact stateNonneg_sell (hmid _) hpr hs0 hs1
        · exact hmid _
    · split
      · exact h
      · split
        · rename_i s hfind
          rcases findTriggered_wf hs hfind with ⟨hs0, hs1⟩
          exact stateNonneg_sell (hmid _) hpr hs0 hs1
        · exact hmid _

theorem ledgerDelta_append (ts : List Trade) (t : Trade) :
    ledgerDelta (ts ++ [t]) = ledgerDelta ts + tradeDelta t := by
  simp [ledgerDelta]

theorem tradeDelta_of_buy {t : Trade} (hty : t.trade_type = "buy")
    (hst : t.status = "confirmed") : tradeDelta t = -t.quote_amount := by
  unfold tradeDelta
  rw [if_pos hst, if_neg (by rw [hty]; decide)]

theorem tradeDelta_of_sell {t : Trade} (hty : t.trade_type = "sell")
    (hst : t.status = "confirmed") : tradeDelta t = t.quote_amount := by
  unfold tradeDelta
  rw [if_pos hst, if_pos hty]

theorem balanceConsistent_buy {st : PaperState}
    {pool_id base_mint quote_mint : String} {price : ℚ}
    {base_decimals quote_decimals : ℕ} {sol_amount : ℚ} {now : ℕ}
    (h : balanceConsistent st) :
    balanceConsistent (execute_buy st pool_id base_mint quote_mint price
      base_decimals quote_decimals sol_amount now).1 := by
  unfold execute_buy
  split_ifs
  · exact h
  · unfold balanceConsistent at *
    dsimp only
    rw [ledgerDelta_append]
    unfold tradeDelta
    rw [if_pos rfl, if_neg (by simp)]
    dsimp only
    rw [h]
    ring

theorem balanceConsistent_sell {st : PaperState} {pool_id : String}
    {price percentage : ℚ} {now : ℕ} (h : balanceConsistent st) :
    balanceConsistent (execute_sell st pool_id price percentage now).1 := by
  unfold execute_sell
  split
  · exact h
  · rename_i pos heq
    split_ifs
    · exact h
    all_goals
      unfold balanceConsistent at *
      dsimp only
      rw [ledgerDelta_append]
      unfold tradeDelta
      rw [if_pos rfl, if_pos rfl]
      dsimp only
      rw [h]
      ring

theorem balanceConsistent_upd {st : PaperState} {pool_id : String}
    {current_price : ℚ} {now : ℕ} (h : balanceConsistent st) :
    balanceConsistent (update_position_price st pool_id current_price now).1 := by
  unfold update_position_price
  split
  · exact h
  · rename_i pos heq
    dsimp only
    have hmid : ∀ c' : ℕ, balanceConsistent
        { portfolio := { st.portfolio with
            positions := dictInsert pool_id
              { pos with last_price := current_price }
              st.portfolio.positions },
          position_updates := dictInsert pool_id c' st.position_updates,
          strategies := st.strategies } := fun _ => h
    split_ifs
    · exact h
    · exact h
    · exact balanceConsistent_sell h
    · split
      · exact h
      · split
        · exact balanceConsistent_sell (hmid _)
        · exact hmid _
    · split
      · exact h
      · split
        · exact balanceConsistent_sell (hmid _)
        · exact hmid _

theorem strategies_buy (st : PaperState)
    (pool_id base_mint quote_mint : String) (price : ℚ)
    (base_decimals quote_decimals : ℕ) (sol_amount : ℚ) (now : ℕ) :
    (execute_buy st pool_id base_mint quote_mint price base_decimals
      quote_decimals sol_amount now).1.strategies = st.strategies := by
  unfold execute_buy
  split_ifs <;> rfl

theorem strategies_sell (st : PaperState) (pool_id : String)
    (price percentage : ℚ) (now : ℕ) :
    (execute_sell st pool_id price percentage now).1.strategies
      = st.strategies := by
  unfold execute_sell
  split
  · rfl
  · split_ifs <;> rfl

theorem strategies_upd (st : PaperState) (pool_id : String)
    (current_price : ℚ) (now : ℕ) :
    (update_position_price st pool_id current_price now).1.strategies
      = st.strategies := by
  unfold update_position_price
  split
  · rfl
  · dsimp only
    split_ifs
    · rfl
    · rfl
    · exact strategies_sell _ _ _ _ _
    · split
      · rfl
      · split
        · exact strategies_sell _ _ _ _ _
        · rfl
    · split
      · rfl
      · split
        · exact strategies_sell _ _ _ _ _
        · rfl

theorem execute_buy_pool_id (st : PaperState)
    (pool_id base_mint quote_mint : String) (price : ℚ)
    (base_decimals quote_decimals : ℕ) (sol_amount : ℚ) (now : ℕ) :
    (execute_buy st pool_id base_mint quote_mint price base_decimals
      quote_decimals sol_amount now).2.pool_id = pool_id := by
  unfold execute_buy
  split_ifs <;> rfl

theorem execute_buy_trade_type (st : PaperState)
    (pool_id base_mint quote_mint : String) (price : ℚ)
    (base_decimals quote_decimals : ℕ) (sol_amount : ℚ) (now : ℕ)
    (h : (execute_buy st pool_id base_mint quote_mint price base_decimals
      quote_decimals sol_amount now).2.status = "confirmed") :
    (execute_buy st pool_id base_mint quote_mint price base_decimals
      quote_decimals sol_amount now).2.trade_type = "buy" := by
  unfold execute_buy at *
  split_ifs at *
  · dsimp only at h
    exact absurd h (by decide)
  · rfl

theorem execute_buy_trades_confirmed {st : PaperState}
    {pool_id base_mint quote_mint : String} {price : ℚ}
    {base_decimals quote_decimals : ℕ} {sol_amount : ℚ} {now : ℕ}
    (h : (execute_buy st pool_id base_mint quote_mint price base_decimals
      quote_decimals sol_amount now).2.status = "confirmed") :
    (execute_buy st pool_id base_mint quote_mint price base_decimals
      quote_decimals sol_amount now).1.portfolio.trades
      = st.portfolio.trades ++ [(execute_buy st pool_id base_mint quote_mint
          price base_decimals quote_decimals sol_amount now).2] := by
  unfold execute_buy at *
  split_ifs at *
  · dsimp only at h
    exact absurd h (by decide)
  · rfl

theorem execute_buy_failed {st : PaperState}
    {pool_id base_mint quote_mint : String} {price : ℚ}
    {base_decimals quote_decimals : ℕ} {sol_amount : ℚ} {now : ℕ}
    (h : ¬(execute_buy st pool_id base_mint quote_mint price base_decimals
      quote_decimals sol_amount now).2.status = "confirmed") :
    (execute_buy st pool_id base_mint quote_mint price base_decimals
      quote_decimals sol_amount now).1 = st := by
  unfold execute_buy at *
  split_ifs at *
  · rfl
  · exact absurd rfl h

theorem confirmedBuysFor_append (p : String) (ts : List Trade) (t : Trade) :
    confirmedBuysFor p (ts ++ [t]) = confirmedBuysFor p ts
      + (if t.pool_id = p ∧ t.trade_type = "buy" ∧ t.status = "confirmed"
         then 1 else 0) := by
  unfold confirmedBuysFor
  rw [List.filter_append]
  by_cases hc : t.pool_id = p ∧ t.trade_type = "buy" ∧ t.status = "confirmed"
  · rw [if_pos hc]
    have : (t.pool_id == p && t.trade_type == "buy"
        && t.status == "confirmed") = true := by
      simp [hc.1, hc.2.1, hc.2.2]
    simp [List.filter_cons, this]
  · rw [if_neg hc]
    have : (t.pool_id == p && t.trade_type == "buy"
        && t.status == "confirmed") = false := by
      rcases Decidable.not_and_iff_or_not.1 hc with h1 | h1
      · simp [h1]
      rcases Decidable.not_and_iff_or_not.1 h1 with h2 | h2
      · simp [h2]
      · simp [h2]
    simp [List.filter_cons, this]

theorem tradesFor_append (p : String) (ts : List Trade) (t : Trade) :
    tradesFor p (ts ++ [t]) = tradesFor p ts
      + (if t.pool_id = p then 1 else 0) := by
  unfold tradesFor
  rw [List.filter_append]
  by_cases hc : t.pool_id = p
  · simp [List.filter_cons, hc]
  · simp [List.filter_cons, hc]

/-- What one `_process_trade_queue` iteration does, stated through the
state projections the invariants below read. -/
theorem processQueueStep_spec (cfg : EngineConfig) (st : EngineState)
    (now : ℕ) :
    (st.trade_queue = [] ∧ processQueueStep cfg st now = st) ∨
    (∃ pool info rest, st.trade_queue = (pool, info) :: rest ∧
      ((pool ∈ st.traded_pools ∧
          (processQueueStep cfg st now).paper = st.paper ∧
          (processQueueStep cfg st now).trade_queue = rest ∧
          (processQueueStep cfg st now).traded_pools = st.traded_pools ∧
          (processQueueStep cfg st now).active_monitors
            = st.active_monitors ∧
          (processQueueStep cfg st now).pending_pools = st.pending_pools) ∨
       (pool ∉ st.traded_pools ∧
        (execute_buy st.paper pool info.base_mint info.quote_mint
          info.initial_price info.base_decimals info.quote_decimals
          cfg.initial_buy_amount now).2.status = "confirmed" ∧
        (processQueueStep cfg st now).paper
          = (execute_buy st.paper pool info.base_mint info.quote_mint
              info.initial_price info.base_decimals info.quote_decimals
              cfg.initial_buy_amount now).1 ∧
        (processQueueStep cfg st now).trade_queue = rest ∧
        (processQueueStep cfg st now).traded_pools = pool :: st.traded_pools ∧
        ((processQueueStep cfg st now).active_monitors = st.active_monitors ∨
         (processQueueStep cfg st now).active_monitors
           = pool :: st.active_monitors) ∧
        (∀ q, q ≠ pool →
          dictGet q (processQueueStep cfg st now).pending_pools
            = dictGet q st.pending_pools)) ∨
       (pool ∉ st.traded_pools ∧
        ¬(execute_buy st.paper pool info.base_mint info.quote_mint
          info.initial_price info.base_decimals info.quote_decimals
          cfg.initial_buy_amount now).2.status = "confirmed" ∧
        (processQueueStep cfg st now).paper
          = (execute_buy st.paper pool info.base_mint info.quote_mint
              info.initial_price info.base_decimals info.quote_decimals
              cfg.initial_buy_amount now).1 ∧
        (processQueueStep cfg st now).trade_queue = rest ∧
        (processQueueStep cfg st now).traded_pools = st.traded_pools ∧
        (processQueueStep cfg st now).active_monitors
          = st.active_monitors ∧
        (processQueueStep cfg st now).pending_pools = st.pending_pools))) := by
  rcases hq : st.trade_queue with _ | ⟨⟨pool, info⟩, rest⟩
  · left
    refine ⟨rfl, ?_⟩
    unfold processQueueStep
    rw [hq]
  · right
    refine ⟨pool, info, rest, rfl, ?_⟩
    by_cases htr : pool ∈ st.traded_pools
    · left
      refine ⟨htr, ?_, ?_, ?_, ?_, ?_⟩ <;>
        (unfold processQueueStep; rw [hq]; dsimp only; rw [if_pos htr])
    · by_cases hconf : (execute_buy st.paper pool info.base_mint
          info.quote_mint info.initial_price info.base_decimals
          info.quote_decimals cfg.initial_buy_amount now).2.status
            = "confirmed"
      · right; left
        refine ⟨htr, hconf, ?_, ?_, ?_, ?_, ?_⟩
        · unfold processQueueStep; rw [hq]; dsimp only
          rw [if_neg htr, if_pos hconf]
        · unfold processQueueStep; rw [hq]; dsimp only
          rw [if_neg htr, if_pos hconf]
        · unfold processQueueStep; rw [hq]; dsimp only
          rw [if_neg htr, if_pos hconf]
        · by_cases hm : pool ∈ st.active_monitors
          · left
            unfold processQueueStep; rw [hq]; dsimp only
            rw [if_neg htr, if_pos hconf]
            dsimp only
            rw [if_pos hm]
          · right
            unfold processQueueStep; rw [hq]; dsimp only
            rw [if_neg htr, if_pos hconf]
            dsimp only
            rw [if_neg hm]
        · intro q hqne
          unfold processQueueStep; rw [hq]; dsimp only
          rw [if_neg htr, if_pos hconf]
          dsimp only
          rcases hpd : dictGet pool st.pending_pools with _ | i
          · rfl
          · exact dictGet_insert_ne _ _ hqne
      · right; right
        refine ⟨htr, hconf, ?_, ?_, ?_, ?_, ?_⟩
        · unfold processQueueStep; rw [hq]; dsimp only
          rw [if_neg htr, if_neg hconf]
        · unfold processQueueStep; rw [hq]; dsimp only
          rw [if_neg htr, if_neg hconf]
        · unfold processQueueStep; rw [hq]; dsimp only
          rw [if_neg htr, if_neg hconf]
        · unfold processQueueStep; rw [hq]; dsimp only
          rw [if_neg htr, if_neg hconf]
        · unfold processQueueStep; rw [hq]; dsimp only
          rw [if_neg htr, if_neg hconf]

/-- Induction invariant for claim C5: once a pool is in `_traded_pools`
it has at most one confirmed buy on the ledger, and a pool not yet marked
traded has none. -/
def C5Inv (p : String) (st : EngineState) : Prop :=
  (p ∈ st.traded_pools → confirmedBuysFor p st.paper.portfolio.trades ≤ 1) ∧
  (p ∉ st.traded_pools → confirmedBuysFor p st.paper.portfolio.trades = 0)

theorem c5inv_processQueueStep (cfg : EngineConfig) (now : ℕ) {p : String}
    {st : EngineState} (h : C5Inv p st) :
    C5Inv p (processQueueStep cfg st now) := by
  rcases processQueueStep_spec cfg st now with ⟨_, hs⟩ |
    ⟨pool, info, rest, hq,
      ⟨_, hpaper, _, htraded, _, _⟩ |
      ⟨htr, hconf, hpaper, _, htraded, _, _⟩ |
      ⟨_, hconf, hpaper, _, htraded, _, _⟩⟩
  · rw [hs]; exact h
  · unfold C5Inv
    rw [hpaper, htraded]
    exact h
  · have htr' := execute_buy_trades_confirmed hconf
    have hpid := execute_buy_pool_id st.paper pool info.base_mint
      info.quote_mint info.initial_price info.base_decimals
      info.quote_decimals cfg.initial_buy_amount now
    constructor
    · intro _
      rw [hpaper, htr', confirmedBuysFor_append]
      by_cases hpp : pool = p
      · subst hpp
        rw [h.2 htr]
        split_ifs <;> norm_num
      · rw [if_neg (by rw [hpid]; exact fun hc => hpp hc.1)]
        by_cases hmem : p ∈ st.traded_pools
        · have := h.1 hmem; omega
        · have := h.2 hmem; omega
    · intro hnot
      rw [htraded] at hnot
      have hnp : p ∉ st.traded_pools := fun hc =>
        hnot (List.mem_cons_of_mem _ hc)
      have hpp : pool ≠ p := fun hc =>
        hnot (by rw [hc]; exact List.mem_cons_self _ _)
      rw [hpaper, htr', confirmedBuysFor_append,
        if_neg (by rw [hpid]; exact fun hc => hpp hc.1), h.2 hnp]
  · have hfail := execute_buy_failed hconf
    unfold C5Inv
    rw [hpaper, htraded, hfail]
    exact h

theorem balanceConsistent_processQueueStep (cfg : EngineConfig) (now : ℕ)
    {st : EngineState} (h : balanceConsistent st.paper) :
    balanceConsistent (processQueueStep cfg st now).paper := by
  rcases processQueueStep_spec cfg st now with ⟨_, hs⟩ |
    ⟨pool, info, rest, hq,
      ⟨_, hpaper, _⟩ | ⟨_, _, hpaper, _⟩ | ⟨_, _, hpaper, _⟩⟩
  · rw [hs]; exact h
  · rw [hpaper]; exact h
  · rw [hpaper]; exact balanceConsistent_buy h
  · rw [hpaper]; exact balanceConsistent_buy h

theorem tradesFor_execute_buy_ne {st : PaperState} {pid : String}
    (p : String) (hne : pid ≠ p) (b q : String) (pr : ℚ) (bd qd : ℕ)
    (sol : ℚ) (now : ℕ) :
    tradesFor p (execute_buy st pid b q pr bd qd sol now).1.portfolio.trades
      = tradesFor p st.portfolio.trades := by
  by_cases hconf : (execute_buy st pid b q pr bd qd sol now).2.status
      = "confirmed"
  · rw [execute_buy_trades_confirmed hconf, tradesFor_append,
      if_neg (by rw [execute_buy_pool_id]; exact hne)]
    omega
  · rw [execute_buy_failed hconf]

theorem noTraceOf_onNewPool (cfg : EngineConfig) {p : String}
    {st : EngineState} (q : String) (age : ℕ) (info : PoolInfo)
    (h : NoTraceOf p st) (hage : q = p → cfg.max_pool_age_ms < age) :
    NoTraceOf p (onNewPool cfg st q age info) := by
  unfold onNewPool
  split_ifs with h1 h2
  · exact h
  · exact h
  · have hqp : q ≠ p := fun hc => h2 (hage hc)
    refine ⟨?_, h.2.1, h.2.2.1, h.2.2.2.1, h.2.2.2.2⟩
    show dictGet p (dictInsert q _ st.pending_pools) = none
    rw [dictGet_insert_ne _ _ (fun hc => hqp hc.symm)]
    exact h.1

theorem noTraceOf_onPoolUpdate {p : String} {st : EngineState}
    (q : String) (price : ℚ) (h : NoTraceOf p st) :
    NoTraceOf p (onPoolUpdate st q price) := by
  unfold onPoolUpdate
  split_ifs with h1 h2
  · exact h
  · exact h
  · split
    · rename_i info hget
      split_ifs with h3
      · exact h
      · have hqp : q ≠ p := by
          intro hc
          rw [hc, h.1] at hget
          exact Option.noConfusion hget
        refine ⟨?_, h.2.1, h.2.2.1, h.2.2.2.1, h.2.2.2.2⟩
        show dictGet p (dictInsert q _ st.pending_pools) = none
        rw [dictGet_insert_ne _ _ (fun hc => hqp hc.symm)]
        exact h.1
    · exact h

theorem noTraceOf_onPoolReady (cfg : EngineConfig) {p : String}
    {st : EngineState} (q : String) (h : NoTraceOf p st) :
    NoTraceOf p (onPoolReady cfg st q) := by
  unfold onPoolReady
  by_cases h1 : q = ""
  · rw [if_pos h1]; exact h
  · rw [if_neg h1]
    split
    · exact h
    · rename_i info hget
      have hqp : q ≠ p := by
        intro hc
        rw [hc, h.1] at hget
        exact Option.noConfusion hget
      have hpe : p ≠ q := fun hc => hqp hc.symm
      dsimp only
      by_cases him : cfg.immediate_trading
      · rw [if_pos him]
        refine ⟨?_, ?_, h.2.2.1, h.2.2.2.1, h.2.2.2.2⟩
        · show dictGet p (dictErase q _) = none
          rw [dictGet_erase_ne _ hpe]
          exact h.1
        · intro x hx
          rcases List.mem_append.1 hx with hx | hx
          · exact h.2.1 x hx
          · rw [List.mem_singleton] at hx
            rw [hx]
            exact hqp
      · rw [if_neg him]
        refine ⟨?_, h.2.1, h.2.2.1, h.2.2.2.1, h.2.2.2.2⟩
        show dictGet p (dictErase q _) = none
        rw [dictGet_erase_ne _ hpe]
        exact h.1

theorem noTraceOf_onPriceQualified {p : String} {st : EngineState}
    (q : String) (h : NoTraceOf p st) :
    NoTraceOf p (onPriceQualified st q) := by
  unfold onPriceQualified
  split
  · exact h
  · rename_i info hget
    have hqp : q ≠ p := by
      intro hc
      rw [hc, h.1] at hget
      exact Option.noConfusion hget
    split_ifs with h2
    · refine ⟨?_, ?_, h.2.2.1, h.2.2.2.1, h.2.2.2.2⟩
      · show dictGet p (dictErase q _) = none
        rw [dictGet_erase_ne _ (fun hc => hqp hc.symm)]
        exact h.1
      · intro x hx
        rcases List.mem_append.1 hx with hx | hx
        · exact h.2.1 x hx
        · rw [List.mem_singleton] at hx
          rw [hx]
          exact hqp
    · exact h

theorem noTraceOf_onPriceWaitTimeout {p : String} {st : EngineState}
    (q : String) (h : NoTraceOf p st) :
    NoTraceOf p (onPriceWaitTimeout st q) := by
  unfold onPriceWaitTimeout
  refine ⟨?_, h.2.1, h.2.2.1, h.2.2.2.1, h.2.2.2.2⟩
  show dictGet p (dictErase q _) = none
  by_cases hqp : p = q
  · rw [hqp]
    exact dictGet_erase_self _ _
  · rw [dictGet_erase_ne _ hqp]
    exact h.1

theorem noTraceOf_processQueueStep (cfg : EngineConfig) (now : ℕ)
    {p : String} {st : EngineState} (h : NoTraceOf p st) :
    NoTraceOf p (processQueueStep cfg st now) := by
  rcases processQueueStep_spec cfg st now with ⟨_, hs⟩ |
    ⟨pool, info, rest, hq,
      ⟨_, hpaper, hqueue, htraded, hmon, hpend⟩ |
      ⟨_, _, hpaper, hqueue, htraded, hmon, hpend⟩ |
      ⟨_, _, hpaper, hqueue, htraded, hmon, hpend⟩⟩
  · rw [hs]; exact h
  · have hrest : ∀ x ∈ rest, x.1 ≠ p := fun x hx =>
      h.2.1 x (by rw [hq]; exact List.mem_cons_of_mem _ hx)
    refine ⟨?_, ?_, ?_, ?_, ?_⟩
    · rw [hpend]; exact h.1
    · rw [hqueue]; exact hrest
    · rw [htraded]; exact h.2.2.1
    · rw [hmon]; exact h.2.2.2.1
    · rw [hpaper]; exact h.2.2.2.2
  · have hpool : pool ≠ p :=
      h.2.1 (pool, info) (by rw [hq]; exact List.mem_cons_self _ _)
    have hrest : ∀ x ∈ rest, x.1 ≠ p := fun x hx =>
      h.2.1 x (by rw [hq]; exact List.mem_cons_of_mem _ hx)
    refine ⟨?_, ?_, ?_, ?_, ?_⟩
    · rw [hpend p (fun hc => hpool hc.symm)]; exact h.1
    · rw [hqueue]; exact hrest
    · rw [htraded]
      intro hc
      rcases List.mem_cons.1 hc with hc | hc
      · exact hpool hc.symm
      · exact h.2.2.1 hc
    · rcases hmon with hmon | hmon
      · rw [hmon]; exact h.2.2.2.1
      · rw [hmon]
        intro hc
        rcases List.mem_cons.1 hc with hc | hc
        · exact hpool hc.symm
        · exact h.2.2.2.1 hc
    · rw [hpaper]
      show tradesFor p _ = 0
      rw [tradesFor_execute_buy_ne p hpool]
      exact h.2.2.2.2
  · have hpool : pool ≠ p :=
      h.2.1 (pool, info) (by rw [hq]; exact List.mem_cons_self _ _)
    have hrest : ∀ x ∈ rest, x.1 ≠ p := fun x hx =>
      h.2.1 x (by rw [hq]; exact List.mem_cons_of_mem _ hx)
    refine ⟨?_, ?_, ?_, ?_, ?_⟩
    · rw [hpend]; exact h.1
    · rw [hqueue]; exact hrest
    · rw [htraded]; exact h.2.2.1
    · rw [hmon]; exact h.2.2.2.1
    · rw [hpaper]
      show tradesFor p _ = 0
      rw [tradesFor_execute_buy_ne p hpool]
      exact h.2.2.2.2

theorem noTraceOf_monitorTick (cfg : EngineConfig) {p : String}
    {st : EngineState} (q : String) (elapsed_s : ℕ) (h : NoTraceOf p st) :
    NoTraceOf p (monitorPoolStep cfg st q elapsed_s) := by
  unfold monitorPoolStep stopPoolMonitoring
  split_ifs
  · refine ⟨h.1, h.2.1, h.2.2.1, ?_, h.2.2.2.2⟩
    intro hc
    exact h.2.2.2.1 (List.mem_of_mem_filter hc)
  · exact h
  · exact h

theorem noTraceOf_engineStep (cfg : EngineConfig) (now : ℕ) {p : String}
    {st : EngineState} {e : EngineEvent} (h : NoTraceOf p st)
    (hage : newPoolAgeExceeds cfg p e = true) :
    NoTraceOf p (engineStep cfg st now e) := by
  cases e with
  | newPool q age info =>
    refine noTraceOf_onNewPool cfg q age info h (fun hqp => ?_)
    unfold newPoolAgeExceeds at hage
    rw [hqp] at hage
    simp only [bne_self_eq_false, Bool.false_or, decide_eq_true_eq] at hage
    exact hage
  | poolUpdate q price => exact noTraceOf_onPoolUpdate q price h
  | poolReady q => exact noTraceOf_onPoolReady cfg q h
  | priceQualified q => exact noTraceOf_onPriceQualified q h
  | priceWaitTimeout q => exact noTraceOf_onPriceWaitTimeout q h
  | processQueue => exact noTraceOf_processQueueStep cfg now h
  | monitorTick q e => exact noTraceOf_monitorTick cfg q e h

theorem noTraceOf_runEvents (cfg : EngineConfig) {p : String} :
    ∀ (evs : List EngineEvent) (st : EngineState) (now : ℕ),
      NoTraceOf p st → (∀ e ∈ evs, newPoolAgeExceeds cfg p e = true) →
      NoTraceOf p (runEvents cfg st now evs) := by
  intro evs
  induction evs with
  | nil => intro st now h _; exact h
  | cons e es ih =>
    intro st now h hage
    exact ih _ _
      (noTraceOf_engineStep cfg now h (hage e (List.mem_cons_self _ _)))
      (fun x hx => hage x (List.mem_cons_of_mem _ hx))

theorem c5inv_drainQueue (cfg : EngineConfig) {p : String} :
    ∀ (fuel : ℕ) (st : EngineState) (now : ℕ), C5Inv p st →
      C5Inv p (drainQueue cfg st now fuel) := by
  intro fuel
  induction fuel with
  | zero => intro st now h; exact h
  | succ n ih =>
    intro st now h
    exact ih _ _ (c5inv_processQueueStep cfg now h)

theorem balanceConsistent_drainQueue (cfg : EngineConfig) :
    ∀ (fuel : ℕ) (st : EngineState) (now : ℕ), balanceConsistent st.paper →
      balanceConsistent (drainQueue cfg st now fuel).paper := by
  intro fuel
  induction fuel with
  | zero => intro st now h; exact h
  | succ n ih =>
    intro st now h
    exact ih _ _ (balanceConsistent_processQueueStep cfg now h)

theorem strategies_applyOp (st : PaperState) (op : PaperOp) :
    (applyOp st op).strategies = st.strategies := by
  cases op with
  | buy p b q pr bd qd sol now => exact strategies_buy st p b q pr bd qd sol now
  | sell p pr perc now => exact strategies_sell st p pr perc now
  | upd p pr now => exact strategies_upd st p pr now

theorem stateNonneg_applyOps {st : PaperState} {ops : List PaperOp}
    (h : StateNonneg st) (hs : StrategiesWf st.strategies)
    (hops : ∀ op ∈ ops, op.wf) : StateNonneg (applyOps st ops) := by
  induction ops generalizing st with
  | nil => exact h
  | cons op ops ih =>
    have hwf : op.wf := hops op (List.mem_cons_self _ _)
    have hstep : StateNonneg (applyOp st op) := by
      cases op with
      | buy p b q pr bd qd sol now =>
        exact stateNonneg_buy h hwf.1 hwf.2
      | sell p pr perc now =>
        exact stateNonneg_sell h hwf.1 hwf.2.1 hwf.2.2
      | upd p pr now =>
        exact stateNonneg_upd h hwf hs
    have hs' : StrategiesWf (applyOp st op).strategies := by
      rw [strategies_applyOp]; exact hs
    exact ih hstep hs' (fun o ho => hops o (List.mem_cons_of_mem _ ho))

/-- Characterization of `execute_sell` on a pool with an open position. -/
theorem execute_sell_open_spec {st : PaperState} {pool_id : String}
    {pos : Position} (price percentage : ℚ) (now : ℕ)
    (hpos : dictGet pool_id st.portfolio.positions = some pos)
    (hopen : pos.status = "open") :
    (execute_sell st pool_id price percentage now).1.portfolio.balance
      = st.portfolio.balance
        + quantize9 (pos.base_amount * percentage * price) ∧
    (execute_sell st pool_id price percentage now).2
      = some { tx_signature := some (mkTxSignature now), pool_id := pool_id,
               trade_type := "sell",
               base_amount := pos.base_amount * percentage,
               quote_amount := quantize9 (pos.base_amount * percentage * price),
               price := price, timestamp := now, status := "confirmed" } ∧
    (percentage = 1 →
      dictGet pool_id
        (execute_sell st pool_id price percentage now).1.portfolio.positions
        = none) ∧
    (percentage ≠ 1 →
      dictGet pool_id
        (execute_sell st pool_id price percentage now).1.portfolio.positions
        = some { pos with
            base_amount := pos.base_amount - pos.base_amount * percentage,
            quote_amount := pos.quote_amount * (1 - percentage) }) := by
  unfold execute_sell
  rw [hpos]
  dsimp only
  rw [if_neg (by rw [hopen]; exact fun hc => hc rfl)]
  by_cases hp : percentage = 1
  · rw [if_pos hp]
    exact ⟨rfl, rfl, fun _ => dictGet_erase_self _ _, fun hc => absurd hp hc⟩
  · rw [if_neg hp]
    exact ⟨rfl, rfl, fun hc => absurd hc hp,
      fun _ => dictGet_insert_self _ _ _⟩

/-- Characterization of `execute_buy` when the balance suffices and the
price is non-zero. -/
theorem execute_buy_success_spec (st : PaperState)
    (pool_id base_mint quote_mint : String) (price : ℚ)
    (base_decimals quote_decimals : ℕ) (sol_amount : ℚ) (now : ℕ)
    (hbal : ¬st.portfolio.balance < sol_amount) (hpr : price ≠ 0) :
    (execute_buy st pool_id base_mint quote_mint price base_decimals
      quote_decimals sol_amount now).2.status = "confirmed" ∧
    dictGet pool_id (execute_buy st pool_id base_mint quote_mint price
      base_decimals quote_decimals sol_amount now).1.portfolio.positions
      = some { pool_id := pool_id, base_mint := base_mint,
               quote_mint := quote_mint, base_decimals := base_decimals,
               quote_decimals := quote_decimals,
               entry_trade_id := mkTxSignature now, entry_price := price,
               base_amount := quantize9 (sol_amount / price),
               quote_amount := sol_amount, entry_timestamp := now,
               status := "open", last_price := price,
               consecutive_profit_updates := 0 } ∧
    (execute_buy st pool_id base_mint quote_mint price base_decimals
      quote_decimals sol_amount now).1.portfolio.balance
      = st.portfolio.balance - sol_amount := by
  unfold execute_buy
  rw [if_neg (by rw [not_or]; exact ⟨hbal, hpr⟩)]
  exact ⟨rfl, dictGet_insert_self _ _ _, rfl⟩

/-- An empty strategy configuration (the default when
`exit_strategies.json` is absent). -/
def noStrategies : Strategies := { strategies := [], active_strategies := [] }

/-! ## Claim theorems -/

/-- Claim C1: for every pool id and every sequence of interleaved
`execute_buy` / `execute_sell` / `update_position_price` operations on the
paper-trading portfolio (starting from the fresh portfolio), at every
instant the portfolio holds at most one position with status `'open'` for
that pool id. -/
theorem c1_at_most_one_open_position (strats : Strategies)
    (ops : List PaperOp) (p : String) :
    openPositionsFor p (applyOps (initialPaperState strats) ops) ≤ 1 := by
  have h : PosKeysNodup (applyOps (initialPaperState strats) ops) :=
    posKeysNodup_applyOps ops
      (by unfold PosKeysNodup initialPaperState; simp)
  exact filter_key_length_le_one p _ h

/-- Claim C9: starting from the fresh portfolio (non-negative balance),
the quote balance never goes negative under any sequence of buys and
sells with market-sane arguments; and a buy whose amount exceeds the
balance is rejected with status `'failed'`, leaving balance and positions
unchanged. -/
theorem c9_balance_never_negative (strats : Strategies)
    (ops : List PaperOp) (hs : StrategiesWf strats)
    (hops : ∀ op ∈ ops, op.wf) :
    0 ≤ (applyOps (initialPaperState strats) ops).portfolio.balance ∧
    (∀ (st : PaperState) (pool_id base_mint quote_mint : String)
      (price : ℚ) (bd qd : ℕ) (sol_amount : ℚ) (now : ℕ),
      st.portfolio.balance < sol_amount →
      (execute_buy st pool_id base_mint quote_mint price bd qd
        sol_amount now).1 = st ∧
      (execute_buy st pool_id base_mint quote_mint price bd qd
        sol_amount now).2.status = "failed") := by
  constructor
  · have hinit : StateNonneg (initialPaperState strats) := by
      constructor
      · show (0 : ℚ) ≤ initial_balance
        unfold initial_balance
        norm_num
      · intro q hq
        exact absurd hq (by simp [initialPaperState])
    exact (stateNonneg_applyOps hinit hs hops).1
  · intro st pid b q pr bd qd sol now hlt
    constructor
    · unfold execute_buy
      rw [if_pos (Or.inl hlt)]
    · unfold execute_buy
      rw [if_pos (Or.inl hlt)]

/-- Witness for C9 at a concrete input. -/
theorem c9_balance_never_negative_witness :
    StrategiesWf noStrategies ∧
    (∀ op ∈ [PaperOp.buy "P" "BASE" "QUOTE" 1 9 6 1 5], op.wf) ∧
    0 ≤ (applyOps (initialPaperState noStrategies)
      [PaperOp.buy "P" "BASE" "QUOTE" 1 9 6 1 5]).portfolio.balance := by
  have hs : StrategiesWf noStrategies := by
    intro q hq
    exact absurd hq (by simp [noStrategies])
  have hops : ∀ op ∈ [PaperOp.buy "P" "BASE" "QUOTE" 1 9 6 1 5], op.wf := by
    intro op hop
    rw [List.mem_singleton] at hop
    rw [hop]
    exact ⟨by norm_num, by norm_num⟩
  exact ⟨hs, hops, (c9_balance_never_negative _ _ hs hops).1⟩

/-- Claim C5: for every trade that reaches status Confirmed the ledger
balance adjustment is applied exactly once even when the pool's entry is
re-delivered on the trade queue: the queue processor skips a pool already
marked traded (so a fresh pool gains at most one confirmed buy however
often it is queued), the balance always equals the start balance plus
each recorded confirmed trade's adjustment applied exactly once, and the
persisted trade record is keyed by the transaction signature
(`trade_id TEXT PRIMARY KEY`), so re-storing the same signature leaves
the trades table unchanged. -/
theorem c5_confirmed_adjustment_exactly_once (cfg : EngineConfig)
    (st : EngineState) (p : String) (fuel now : ℕ)
    (h0 : confirmedBuysFor p st.paper.portfolio.trades = 0)
    (h1 : p ∉ st.traded_pools)
    (h2 : balanceConsistent st.paper) :
    confirmedBuysFor p
      (drainQueue cfg st now fuel).paper.portfolio.trades ≤ 1 ∧
    balanceConsistent (drainQueue cfg st now fuel).paper ∧
    (∀ (db : List (String × Trade)) (sig : String) (t : Trade),
      (storeTrade (storeTrade db sig t).2 sig t).2
        = (storeTrade db sig t).2) := by
  refine ⟨?_, balanceConsistent_drainQueue cfg fuel st now h2, ?_⟩
  · have hinv : C5Inv p st := ⟨fun hmem => absurd hmem h1, fun _ => h0⟩
    have hfin := c5inv_drainQueue cfg fuel st now hinv
    by_cases hmem : p ∈ (drainQueue cfg st now fuel).traded_pools
    · exact hfin.1 hmem
    · rw [hfin.2 hmem]
      omega
  · intro db sig t
    by_cases hdup : db.any (fun q => q.1 == sig)
    · simp [storeTrade, hdup]
    · simp [storeTrade, hdup]

/-- Configuration used by the concrete scenarios below: 5000 ms maximum
pool age, immediate trading, 1 SOL buys, 300 s maximum monitor time. -/
def witCfg : EngineConfig :=
  { max_pool_age_ms := 5000, immediate_trading := true,
    initial_buy_amount := 1, max_monitor_time := 300 }

/-- A pool-discovered payload with a received price. -/
def witInfo : PoolInfo :=
  { base_mint := "B", quote_mint := "Q", base_decimals := 9,
    quote_decimals := 6, initial_price := 1, price_received := true }

/-- Engine state whose trade queue holds the same pool twice
(a re-delivered entry submission). -/
def c5WitState : EngineState :=
  { pending_pools := [], trade_queue := [("P", witInfo), ("P", witInfo)],
    traded_pools := [], active_monitors := [],
    paper := initialPaperState noStrategies }

/-- Witness for C5 at a concrete input: the same pool delivered twice. -/
theorem c5_confirmed_adjustment_exactly_once_witness :
    confirmedBuysFor "P"
      (initialPaperState noStrategies).portfolio.trades = 0 ∧
    balanceConsistent (initialPaperState noStrategies) ∧
    confirmedBuysFor "P"
      (drainQueue witCfg c5WitState 11 2).paper.portfolio.trades ≤ 1 := by
  have h0 : confirmedBuysFor "P"
      (initialPaperState noStrategies).portfolio.trades = 0 := rfl
  have h2 : balanceConsistent (initialPaperState noStrategies) := by
    unfold balanceConsistent initialPaperState ledgerDelta
    simp
  refine ⟨h0, h2, ?_⟩
  exact (c5_confirmed_adjustment_exactly_once witCfg c5WitState "P" 2 11 h0
    (by simp [c5WitState]) h2).1

/-- Claim C7: a pool-discovered event whose age exceeds `maxPoolAgeMs` is
terminal (the spec's `Expired`): across any sequence of engine events in
which every discovery of that pool is over-age, the pool never enters the
pending set, is never enqueued on the trade queue, is never marked traded
or monitored, and no trade for it ever reaches the paper ledger. -/
theorem c7_aged_pool_never_trades (cfg : EngineConfig) (st0 : EngineState)
    (p : String) (now : ℕ) (evs : List EngineEvent)
    (h0 : NoTraceOf p st0)
    (hage : ∀ e ∈ evs, newPoolAgeExceeds cfg p e = true) :
    NoTraceOf p (runEvents cfg st0 now evs) :=
  noTraceOf_runEvents cfg evs st0 now h0 hage

/-- The empty engine state used by concrete scenarios. -/
def emptyEngineState (strats : Strategies) : EngineState :=
  { pending_pools := [], trade_queue := [], traded_pools := [],
    active_monitors := [], paper := initialPaperState strats }

/-- A pool-discovered payload that has not yet received a price. -/
def c7Info : PoolInfo :=
  { base_mint := "B", quote_mint := "Q", base_decimals := 9,
    quote_decimals := 6, initial_price := 1, price_received := false }

/-- The C7 scenario: a 6-second-old discovery against the 5-second
maximum, then a ready event and a queue-processor run. -/
def c7Events : List EngineEvent :=
  [EngineEvent.newPool "P" 6000 c7Info, EngineEvent.poolReady "P",
   EngineEvent.processQueue]

/-- Witness for C7 at a concrete input. -/
theorem c7_aged_pool_never_trades_witness :
    NoTraceOf "P" (emptyEngineState noStrategies) ∧
    (∀ e ∈ c7Events, newPoolAgeExceeds witCfg "P" e = true) ∧
    NoTraceOf "P"
      (runEvents witCfg (emptyEngineState noStrategies) 0 c7Events) := by
  have h0 : NoTraceOf "P" (emptyEngineState noStrategies) :=
    ⟨rfl, by simp [emptyEngineState], by simp [emptyEngineState],
      by simp [emptyEngineState], rfl⟩
  have hage : ∀ e ∈ c7Events, newPoolAgeExceeds witCfg "P" e = true := by
    intro e he
    simp only [c7Events, List.mem_cons, List.not_mem_nil, or_false] at he
    rcases he with rfl | rfl | rfl <;> rfl
  exact ⟨h0, hage, c7_aged_pool_never_trades witCfg _ "P" 0 _ h0 hage⟩

/-- The profit-based exit strategy of the spec's scenario: 10% profit
threshold, three consecutive confirmations, full sell. -/
def takeProfitStrategy : Strategy :=
  { enabled := true, type := "profit_based", profit_threshold := 1/10,
    consecutive_updates := 3, sell_percentage := 1 }

def takeProfitStrategies : Strategies :=
  { strategies := [("tp", takeProfitStrategy)],
    active_strategies := ["tp"] }

theorem findTriggered_takeProfit (c : ℕ) (q : ℚ) :
    findTriggered takeProfitStrategies c q
      = if 3 ≤ c ∧ 1/10 ≤ q then some takeProfitStrategy else none := by
  by_cases h3 : 3 ≤ c <;> by_cases hq : 1/10 ≤ q <;>
    simp [findTriggered, findTriggeredGo, takeProfitStrategies,
      takeProfitStrategy, dictGet, h3, hq]

/-- Claim C2: with the profit-based exit strategy (threshold 10%,
`consecutive_updates = 3`, full sell), a price sample strictly between the
stop-loss and the profit threshold resets the consecutive counter to zero
and triggers no exit; a sample at or above the threshold increments the
counter, exits exactly when the counter reaches 3 (removing the
position), and not earlier.  In particular, from entry price 0.0000010
the sample sequence [+5%, +12%, +12%, +12%] exits exactly on the third
+12% sample. -/
theorem c2_take_profit_debounce (st : PaperState) (p : String)
    (current_price : ℚ) (now : ℕ) (pos : Position) (c : ℕ)
    (hstrat : st.strategies = takeProfitStrategies)
    (hpos : dictGet p st.portfolio.positions = some pos)
    (hopen : pos.status = "open")
    (hentry : pos.entry_price ≠ 0)
    (hc : dictGet p st.position_updates = some c)
    (hnoloss : -(1/10)
      < (current_price - pos.entry_price) / pos.entry_price) :
    ((current_price - pos.entry_price) / pos.entry_price < 1/10 →
      dictGet p
        (update_position_price st p current_price now).1.position_updates
        = some 0 ∧
      (update_position_price st p current_price now).2 = none) ∧
    (1/10 ≤ (current_price - pos.entry_price) / pos.entry_price →
      (c + 1 < 3 →
        dictGet p
          (update_position_price st p current_price now).1.position_updates
          = some (c + 1) ∧
        (update_position_price st p current_price now).2 = none) ∧
      (3 ≤ c + 1 →
        (update_position_price st p current_price now).2 ≠ none ∧
        dictGet p
          (update_position_price st p current_price now).1.portfolio.positions
          = none)) := by
  have hno : ¬(current_price - pos.entry_price) / pos.entry_price
      ≤ -(1/10) := not_le.mpr hnoloss
  constructor
  · intro hlt
    have hnotge : ¬(1:ℚ)/10
        ≤ (current_price - pos.entry_price) / pos.entry_price :=
      not_le.mpr hlt
    unfold update_position_price
    rw [hpos]
    dsimp only
    rw [if_neg (by rw [hopen]; exact fun hcne => hcne rfl), if_neg hentry,
      if_neg hno, hc]
    dsimp only
    rw [if_neg hnotge, hstrat, findTriggered_takeProfit,
      if_neg (by rintro ⟨h3, _⟩; omega)]
    exact ⟨dictGet_insert_self _ _ _, rfl⟩
  · intro hge
    constructor
    · intro hlt3
      unfold update_position_price
      rw [hpos]
      dsimp only
      rw [if_neg (by rw [hopen]; exact fun hcne => hcne rfl), if_neg hentry,
        if_neg hno, hc]
      dsimp only
      rw [if_pos hge, hstrat, findTriggered_takeProfit,
        if_neg (by rintro ⟨h3, _⟩; omega)]
      exact ⟨dictGet_insert_self _ _ _, rfl⟩
    · intro hge3
      unfold update_position_price
      rw [hpos]
      dsimp only
      rw [if_neg (by rw [hopen]; exact fun hcne => hcne rfl), if_neg hentry,
        if_neg hno, hc]
      dsimp only
      rw [if_pos hge, hstrat, findTriggered_takeProfit,
        if_pos ⟨hge3, hge⟩]
      dsimp only
      have hopen2 : ({ pos with last_price := current_price } : Position).status = "open" := hopen
      constructor
      · rw [(execute_sell_open_spec _ _ _ (dictGet_insert_self _ _ _) hopen2).2.1]
        simp
      · exact (execute_sell_open_spec _ _ _
          (dictGet_insert_self _ _ _) hopen2).2.2.1 rfl

/-- The open position of the C2 scenario: pool `P1`, entry price
0.0000010, after two consecutive +12% confirmations. -/
def c2Pos : Position :=
  { pool_id := "P1", base_mint := "B", quote_mint := "Q",
    base_decimals := 9, quote_decimals := 6,
    entry_trade_id := "paper_tx_1", entry_price := 1/1000000,
    base_amount := 1000000, quote_amount := 1, entry_timestamp := 1,
    status := "open", last_price := 1/1000000,
    consecutive_profit_updates := 0 }

def c2State : PaperState :=
  { portfolio :=
      { balance := 9, positions := [("P1", c2Pos)], trades := [],
        last_update := 1 },
    position_updates := [("P1", 2)],
    strategies := takeProfitStrategies }

/-- Witness for C2 at a concrete input: the third +12% sample (counter
2 → 3) triggers the exit. -/
theorem c2_take_profit_debounce_witness :
    c2Pos.status = "open" ∧
    c2Pos.entry_price ≠ 0 ∧
    -(1/10) < ((28/25000000 : ℚ) - c2Pos.entry_price) / c2Pos.entry_price ∧
    (1:ℚ)/10 ≤ ((28/25000000 : ℚ) - c2Pos.entry_price) / c2Pos.entry_price ∧
    (update_position_price c2State "P1" (28/25000000) 9).2 ≠ none ∧
    dictGet "P1"
      (update_position_price c2State "P1"
        (28/25000000) 9).1.portfolio.positions = none := by
  have hopen : c2Pos.status = "open" := rfl
  have hentry : c2Pos.entry_price ≠ 0 := by
    unfold c2Pos
    norm_num
  have hnoloss : -(1/10)
      < ((28/25000000 : ℚ) - c2Pos.entry_price) / c2Pos.entry_price := by
    unfold c2Pos
    norm_num
  have hge : (1:ℚ)/10
      ≤ ((28/25000000 : ℚ) - c2Pos.entry_price) / c2Pos.entry_price := by
    unfold c2Pos
    norm_num
  have hmain := (c2_take_profit_debounce c2State "P1" (28/25000000) 9
    c2Pos 2 rfl rfl hopen hentry rfl hnoloss).2 hge
  exact ⟨hopen, hentry, hnoloss, hge,
    (hmain.2 (by norm_num)).1, (hmain.2 (by norm_num)).2⟩

/-- Claim C3: for an open position, a price sample whose profit fraction
is at or below the −10% stop-loss threshold makes
`update_position_price` return `execute_sell(pool, price, 1.0)` — an
immediate full sell with no debounce and regardless of the
consecutive-profit counter: the sell trade is returned and the position
is removed. -/
theorem c3_stop_loss_immediate (st : PaperState) (p : String)
    (current_price : ℚ) (now : ℕ) (pos : Position)
    (hpos : dictGet p st.portfolio.positions = some pos)
    (hopen : pos.status = "open")
    (hentry : pos.entry_price ≠ 0)
    (hloss : (current_price - pos.entry_price) / pos.entry_price
      ≤ -(1/10)) :
    update_position_price st p current_price now
      = execute_sell st p current_price 1 now ∧
    (update_position_price st p current_price now).2 ≠ none ∧
    dictGet p
      (update_position_price st p current_price now).1.portfolio.positions
      = none := by
  have heq : update_position_price st p current_price now
      = execute_sell st p current_price 1 now := by
    unfold update_position_price
    rw [hpos]
    dsimp only
    rw [if_neg (by rw [hopen]; exact fun hcne => hcne rfl), if_neg hentry]
    rw [if_pos hloss]
  have hspec := execute_sell_open_spec current_price 1 now hpos hopen
  refine ⟨heq, ?_, ?_⟩
  · rw [heq, hspec.2.1]
    simp
  · rw [heq]
    exact hspec.2.2.1 rfl

/-- The open position of the C3 scenario: pool `P2`, entry price 1.0. -/
def c3Pos : Position :=
  { pool_id := "P2", base_mint := "B", quote_mint := "Q",
    base_decimals := 9, quote_decimals := 6,
    entry_trade_id := "paper_tx_3", entry_price := 1, base_amount := 1,
    quote_amount := 1, entry_timestamp := 3, status := "open",
    last_price := 1, consecutive_profit_updates := 0 }

def c3State : PaperState :=
  { portfolio :=
      { balance := 9, positions := [("P2", c3Pos)], trades := [],
        last_update := 3 },
    position_updates := [("P2", 0)],
    strategies := noStrategies }

/-- Witness for C3 at a concrete input: entry 1.0, next sample 0.85. -/
theorem c3_stop_loss_immediate_witness :
    c3Pos.status = "open" ∧
    c3Pos.entry_price ≠ 0 ∧
    ((85/100 : ℚ) - c3Pos.entry_price) / c3Pos.entry_price ≤ -(1/10) ∧
    update_position_price c3State "P2" (85/100) 7
      = execute_sell c3State "P2" (85/100) 1 7 ∧
    (update_position_price c3State "P2" (85/100) 7).2 ≠ none ∧
    dictGet "P2"
      (update_position_price c3State "P2"
        (85/100) 7).1.portfolio.positions = none := by
  have hopen : c3Pos.status = "open" := rfl
  have hentry : c3Pos.entry_price ≠ 0 := by
    unfold c3Pos
    norm_num
  have hloss : ((85/100 : ℚ) - c3Pos.entry_price) / c3Pos.entry_price
      ≤ -(1/10) := by
    unfold c3Pos
    norm_num
  have hmain := c3_stop_loss_immediate c3State "P2" (85/100) 7 c3Pos
    rfl hopen hentry hloss
  exact ⟨hopen, hentry, hloss, hmain.1, hmain.2.1, hmain.2.2⟩

/-- A pool `P` open position at entry price 1, used by the C4 scenario. -/
def c4Pos : Position :=
  { pool_id := "P", base_mint := "B", quote_mint := "Q",
    base_decimals := 9, quote_decimals := 6,
    entry_trade_id := "paper_tx_5", entry_price := 1, base_amount := 1,
    quote_amount := 1, entry_timestamp := 5, status := "open",
    last_price := 1, consecutive_profit_updates := 0 }

def c4State : PaperState :=
  { portfolio :=
      { balance := 9, positions := [("P", c4Pos)], trades := [],
        last_update := 5 },
    position_updates := [("P", 0)],
    strategies := noStrategies }

/-- Counterexample to claim C4 as stated: pool `P` already holds an open
position (entry price 1), yet a second `execute_buy` for `P` is not
rejected with any DuplicatePosition error — it returns status
`'confirmed'` and the stored position now has the new entry price 2 (the
old one was overwritten). -/
theorem c4_counterexample :
    (dictGet "P" c4State.portfolio.positions).map Position.status
      = some "open" ∧
    (dictGet "P" c4State.portfolio.positions).map Position.entry_price
      = some 1 ∧
    (execute_buy c4State "P" "B2" "Q2" 2 9 6 1 7).2.status = "confirmed" ∧
    (dictGet "P"
      (execute_buy c4State "P" "B2" "Q2" 2 9 6 1 7).1.portfolio.positions).map
        Position.entry_price = some 2 := by
  have hspec := execute_buy_success_spec c4State "P" "B2" "Q2" 2 9 6 1 7
    (by norm_num [c4State]) (by norm_num)
  refine ⟨rfl, rfl, hspec.1, ?_⟩
  rw [hspec.2.1]
  rfl

/-- Claim C4 amended: a second `execute_buy` for a pool id that already
has an Open position is not rejected — there is no DuplicatePosition
error anywhere; provided the balance suffices and the price is non-zero
the buy returns status `'confirmed'` and replaces the stored position
(the positions dict is keyed by pool id), recording the new entry price
and entry trade id. -/
theorem c4_amended_second_buy_overwrites (st : PaperState)
    (p base_mint quote_mint : String) (price : ℚ) (bd qd : ℕ) (sol : ℚ)
    (now : ℕ) (pos : Position)
    (hpos : dictGet p st.portfolio.positions = some pos)
    (hopen : pos.status = "open")
    (hbal : ¬st.portfolio.balance < sol) (hpr : price ≠ 0) :
    (execute_buy st p base_mint quote_mint price bd qd sol now).2.status
      = "confirmed" ∧
    (dictGet p (execute_buy st p base_mint quote_mint price bd qd sol
      now).1.portfolio.positions).map Position.entry_price = some price ∧
    (dictGet p (execute_buy st p base_mint quote_mint price bd qd sol
      now).1.portfolio.positions).map Position.entry_trade_id
      = some (mkTxSignature now) := by
  have hspec := execute_buy_success_spec st p base_mint quote_mint price
    bd qd sol now hbal hpr
  refine ⟨hspec.1, ?_, ?_⟩ <;> rw [hspec.2.1] <;> rfl

/-- Witness for the amended C4 at a concrete input. -/
theorem c4_amended_second_buy_overwrites_witness :
    (dictGet "P" c4State.portfolio.positions = some c4Pos) ∧
    c4Pos.status = "open" ∧
    ¬c4State.portfolio.balance < 1 ∧
    (execute_buy c4State "P" "B2" "Q2" 2 9 6 1 7).2.status = "confirmed" ∧
    (dictGet "P"
      (execute_buy c4State "P" "B2" "Q2" 2 9 6 1 7).1.portfolio.positions).map
        Position.entry_price = some 2 := by
  have hbal : ¬c4State.portfolio.balance < 1 := by norm_num [c4State]
  have hmain := c4_amended_second_buy_overwrites c4State "P" "B2" "Q2" 2
    9 6 1 7 c4Pos rfl rfl hbal (by norm_num)
  exact ⟨rfl, rfl, hbal, hmain.1, hmain.2.1⟩

/-- The C10 scenario position: base amount 1, quote amount 1, entry 1. -/
def c10Pos : Position :=
  { pool_id := "P", base_mint := "B", quote_mint := "Q",
    base_decimals := 9, quote_decimals := 6,
    entry_trade_id := "paper_tx_6", entry_price := 1, base_amount := 1,
    quote_amount := 1, entry_timestamp := 6, status := "open",
    last_price := 1, consecutive_profit_updates := 0 }

def c10State : PaperState :=
  { portfolio :=
      { balance := 9, positions := [("P", c10Pos)], trades := [],
        last_update := 6 },
    position_updates := [("P", 0)],
    strategies := noStrategies }

/-- Counterexample to claim C10 as stated: selling half the position
(base sold = 1·(1/2)) at price 1/3 credits the balance with the proceeds
rounded to nine decimal places, which differs from base·price =
(1/2)·(1/3) = 1/6. -/
theorem c10_counterexample :
    (dictGet "P" c10State.portfolio.positions).map Position.base_amount
      = some 1 ∧
    (execute_sell c10State "P" (1/3) (1/2) 22).1.portfolio.balance
        - c10State.portfolio.balance ≠ 1 * (1/2) * (1/3) := by
  have hspec := execute_sell_open_spec (1/3) (1/2) 22
    (show dictGet "P" c10State.portfolio.positions = some c10Pos from rfl)
    rfl
  refine ⟨rfl, ?_⟩
  rw [hspec.1]
  have hq : quantize9 (c10Pos.base_amount * (1/2) * (1/3))
      = 166666667 / 10 ^ 9 := by
    norm_num [c10Pos, quantize9, roundHalfEven]
  rw [hq]
  norm_num [c10State]

/-- Claim C10 amended: for an open position, `execute_sell` with
percentage ≠ 1 leaves the position open with base and quote amounts
scaled by (1 − percentage), while percentage = 1 removes the position
(so `get_position` returns `None`); in both cases the balance increases
by the base sold times price rounded to nine decimal places
(`quantize9`), not by the exact product. -/
theorem c10_amended_sell_scaling (st : PaperState) (p : String)
    (price percentage : ℚ) (now : ℕ) (pos : Position)
    (hpos : dictGet p st.portfolio.positions = some pos)
    (hopen : pos.status = "open") :
    (execute_sell st p price percentage now).1.portfolio.balance
      = st.portfolio.balance
        + quantize9 (pos.base_amount * percentage * price) ∧
    (percentage = 1 →
      get_position (execute_sell st p price percentage now).1 p = none) ∧
    (percentage ≠ 1 →
      (dictGet p (execute_sell st p price percentage
        now).1.portfolio.positions).map Position.base_amount
        = some ((1 - percentage) * pos.base_amount) ∧
      (dictGet p (execute_sell st p price percentage
        now).1.portfolio.positions).map Position.quote_amount
        = some ((1 - percentage) * pos.quote_amount) ∧
      (dictGet p (execute_sell st p price percentage
        now).1.portfolio.positions).map Position.status = some "open") := by
  have hspec := execute_sell_open_spec price percentage now hpos hopen
  refine ⟨hspec.1, ?_, ?_⟩
  · intro h1
    unfold get_position
    exact hspec.2.2.1 h1
  · intro hne
    rw [hspec.2.2.2 hne]
    refine ⟨?_, ?_, ?_⟩
    · show some (pos.base_amount - pos.base_amount * percentage)
        = some ((1 - percentage) * pos.base_amount)
      congr 1
      ring
    · show some (pos.quote_amount * (1 - percentage))
        = some ((1 - percentage) * pos.quote_amount)
      congr 1
      ring
    · show some pos.status = some "open"
      rw [hopen]

/-- Witness for the amended C10 at a concrete input (half sell, then the
full-sell clause at percentage 1). -/
theorem c10_amended_sell_scaling_witness :
    (dictGet "P" c10State.portfolio.positions = some c10Pos) ∧
    c10Pos.status = "open" ∧
    (dictGet "P" (execute_sell c10State "P" (1/3) (1/2)
      22).1.portfolio.positions).map Position.base_amount
      = some ((1 - 1/2) * c10Pos.base_amount) ∧
    get_position (execute_sell c10State "P" (1/3) 1 22).1 "P" = none := by
  have h1 := c10_amended_sell_scaling c10State "P" (1/3) (1/2) 22 c10Pos
    rfl rfl
  have h2 := c10_amended_sell_scaling c10State "P" (1/3) 1 22 c10Pos
    rfl rfl
  exact ⟨rfl, rfl, (h1.2.2 (by norm_num)).1, h2.2.1 rfl⟩

/-- The spec scenario's ten distinct pools, submitted at hour 0
(epoch seconds 3540‥3549). -/
def hourScenario10 : List (String × ℕ) :=
  [("P0", 3540), ("P1", 3541), ("P2", 3542), ("P3", 3543), ("P4", 3544),
   ("P5", 3545), ("P6", 3546), ("P7", 3547), ("P8", 3548), ("P9", 3549)]

/-- Counterexample to claim C6 as stated: ten successful trades all occur
within two minutes (a single rolling hour), yet an eleventh submission
120 seconds after the first — still inside that rolling hour, but in the
next calendar hour — is admitted, because `check_rate_limit` resets the
counter whenever `datetime.now().hour` changes. -/
theorem c6_counterexample :
    (runSubmissions initialListenerState hourScenario10).1
      = [true, true, true, true, true, true, true, true, true, true] ∧
    3660 - 3540 < 3600 ∧
    (execute_trade true 10
      (runSubmissions initialListenerState hourScenario10).2
      "P10" 3660 true).1 = true := by
  refine ⟨by decide, by decide, by decide⟩

/-- Claim C6 amended: the hourly cap is per calendar hour (the counter
resets whenever the wall-clock hour value changes), not per rolling
hour: while the hour value is unchanged and the counter has reached
`maxTradesPerHour = 10`, every submission is rejected (returns `False`
with unchanged state — nothing is queued); once the hour value changes
the counter resets and a submission is admitted again; in particular the
eleventh request within the same calendar hour is rejected. -/
theorem c6_amended_calendar_hour (st : ListenerState) (p : String)
    (now : ℕ) (swapSucceeds : Bool) :
    (hourOf now = st.rate.last_hour_reset →
      10 ≤ st.rate.hourly_trade_count →
      execute_trade true 10 st p now swapSucceeds = (false, st)) ∧
    (hourOf now ≠ st.rate.last_hour_reset →
      dictGet p st.trade_history = none →
      (execute_trade true 10 st p now swapSucceeds).1 = swapSucceeds) ∧
    (execute_trade true 10
      (runSubmissions initialListenerState hourScenario10).2
      "P10" 3550 true).1 = false := by
  refine ⟨?_, ?_, by decide⟩
  · intro h1 h2
    have hne : ¬hourOf now ≠ st.rate.last_hour_reset := fun hc => hc h1
    have hlt : ¬st.rate.hourly_trade_count < 10 := by omega
    simp [execute_trade, check_rate_limit, hne, hlt]
  · intro h1 h2
    cases swapSucceeds <;>
      simp [execute_trade, check_rate_limit, h1, h2]

/-- A listener state whose hourly counter has reached the cap of 10,
with the reset marker at hour 0. -/
def c6FullState : ListenerState :=
  { rate := { hourly_trade_count := 10, last_hour_reset := 0 },
    trade_history := [] }

/-- Witness for the amended C6 at a concrete input: counter at 10 within
the same calendar hour rejects; a fresh pool in a new hour is admitted. -/
theorem c6_amended_calendar_hour_witness :
    hourOf 3550 = c6FullState.rate.last_hour_reset ∧
    execute_trade true 10 c6FullState "P10" 3550 true
      = (false, c6FullState) ∧
    (execute_trade true 10 c6FullState "P11" 3660 true).1 = true := by
  refine ⟨by decide, ?_, ?_⟩
  · exact (c6_amended_calendar_hour c6FullState "P10" 3550 true).1
      (by decide) (by decide)
  · exact (c6_amended_calendar_hour c6FullState "P11" 3660 true).2.1
      (by decide) rfl

/-- The C8 scenario: an engine monitoring pool `P`, whose paper ledger
holds the corresponding open position. -/
def c8Pos : Position :=
  { pool_id := "P", base_mint := "B", quote_mint := "Q",
    base_decimals := 9, quote_decimals := 6,
    entry_trade_id := "paper_tx_5", entry_price := 1, base_amount := 1,
    quote_amount := 1, entry_timestamp := 5, status := "open",
    last_price := 1, consecutive_profit_updates := 0 }

def c8Paper : PaperState :=
  { portfolio :=
      { balance := 9, positions := [("P", c8Pos)], trades := [],
        last_update := 5 },
    position_updates := [("P", 0)],
    strategies := noStrategies }

def c8Engine : EngineState :=
  { pending_pools := [], trade_queue := [], traded_pools := ["P"],
    active_monitors := ["P"], paper := c8Paper }

/-- Counterexample to claim C8 as stated: with the monitoring time
exceeded (301 s > 300 s), the monitor loop stops monitoring pool `P`,
but no sell is executed and the position is not closed — the paper
ledger is untouched and still holds the open position. -/
theorem c8_counterexample :
    "P" ∈ c8Engine.active_monitors ∧
    witCfg.max_monitor_time < 301 ∧
    "P" ∉ (monitorPoolStep witCfg c8Engine "P" 301).active_monitors ∧
    (monitorPoolStep witCfg c8Engine "P" 301).paper = c8Engine.paper ∧
    (dictGet "P" (monitorPoolStep witCfg c8Engine "P"
      301).paper.portfolio.positions).map Position.status = some "open" ∧
    ((monitorPoolStep witCfg c8Engine "P" 301).paper.portfolio.trades.filter
      (fun t => t.trade_type == "sell")).length = 0 := by
  exact ⟨by decide, by decide, by decide, rfl, rfl, rfl⟩

/-- Claim C8 amended: when the elapsed monitoring time exceeds
`max_monitor_time`, `_monitor_pool` stops monitoring the pool (it is
removed from the active monitors and its resources are cleaned up), but
no sell is executed: the paper ledger — including any open position for
the pool — is left untouched (the position is abandoned, not
force-exited). -/
theorem c8_amended_timeout_stops_without_sell (cfg : EngineConfig)
    (st : EngineState) (p : String) (elapsed_s : ℕ)
    (hmem : p ∈ st.active_monitors)
    (ht : cfg.max_monitor_time < elapsed_s) :
    (monitorPoolStep cfg st p elapsed_s).active_monitors
      = st.active_monitors.filter (fun q => q != p) ∧
    (monitorPoolStep cfg st p elapsed_s).paper = st.paper := by
  unfold monitorPoolStep stopPoolMonitoring
  rw [if_pos hmem, if_pos ht]
  exact ⟨rfl, rfl⟩

/-- Witness for the amended C8 at a concrete input. -/
theorem c8_amended_timeout_stops_without_sell_witness :
    "P" ∈ c8Engine.active_monitors ∧
    witCfg.max_monitor_time < 301 ∧
    (monitorPoolStep witCfg c8Engine "P" 301).active_monitors
      = c8Engine.active_monitors.filter (fun q => q != "P") ∧
    (monitorPoolStep witCfg c8Engine "P" 301).paper = c8Engine.paper := by
  have hmain := c8_amended_timeout_stops_without_sell witCfg c8Engine "P"
    301 (by decide) (by decide)
  exact ⟨by decide, by decide, hmain.1, hmain.2⟩

end Listener
